import Mathlib

/-!
Dec Filler front end: record reconciliation and submission pipeline.

Shallow embedding of `src/app.js` (and of `src/web/app.js` where the two differ): the staged
file list, the extracted records, the seller history and its loading from storage, the handlers
`addFiles`, `removeFile`, `processFiles`, `updateData` and `startOver` that mutate them, and the
requests of the three exports.

Conventions of the embedding.

* JavaScript strings are Lean strings (sequences of code points). Every character class the
  code tests (`\s`, `[^0-9]`, `,`) lies in the Basic Multilingual Plane, so matching by code
  point and matching by UTF-16 code unit agree.
* The module-level variables `selectedFiles`, `extractedData`, `sellerHistory`, the
  `sellerHistory` item of `localStorage` and the DOM properties the handlers write
  (`processBtn.disabled`, the `display` of the review, download and message elements, the text
  passed to `showMessage`) are the fields of one `State`; a handler is a function on `State`.
* `String.prototype.toUpperCase` maps each code point through the Unicode upper-case table,
  independently of its neighbours. The table is not part of the repository and is a parameter
  `upperMap` of the embedding.
* `Number.prototype.toLocaleString()` is taken under the `en-US` locale; the digits it prints
  for a double are those of the shortest decimal that reads back as the double, then zeros.
* Markup generation (`updateFileList`, `displayDataTable`, the progress bar) is not embedded,
  except for the odometer text that `displayDataTable` computes.
-/

namespace DecFiller

/-! ## Strings -/

/-- Code points of the regular-expression class `\s`; `String.prototype.trim` and the leading
whitespace skipped by `parseInt` use the same set (WhiteSpace and LineTerminator). -/
def isWhiteSpace (c : Char) : Bool :=
  c.toNat == 0x09 || c.toNat == 0x0A || c.toNat == 0x0B || c.toNat == 0x0C || c.toNat == 0x0D ||
  c.toNat == 0x20 || c.toNat == 0xA0 || c.toNat == 0x1680 ||
  (decide (0x2000 ≤ c.toNat) && decide (c.toNat ≤ 0x200A)) ||
  c.toNat == 0x2028 || c.toNat == 0x2029 || c.toNat == 0x202F || c.toNat == 0x205F ||
  c.toNat == 0x3000 || c.toNat == 0xFEFF

/-- Code points of the class `[0-9]`. -/
def isDecimalDigit (c : Char) : Bool :=
  decide (48 ≤ c.toNat) && decide (c.toNat ≤ 57)

/-- Truthiness of a string value: every string but the empty one. -/
def truthy (s : String) : Bool :=
  !s.data.isEmpty

/-- Embeds `value.toUpperCase()`: each code point is replaced by its upper-case expansion. -/
def toUpperCase (upperMap : Char → List Char) (s : String) : String :=
  ⟨(s.data.map upperMap).flatten⟩

/-- Embeds `value.replace(/\s/g, '')`. -/
def removeWhiteSpace (s : String) : String :=
  ⟨s.data.filter (fun c => !isWhiteSpace c)⟩

/-- Embeds `value.replace(/[^0-9]/g, '')`. -/
def removeNonDigits (s : String) : String :=
  ⟨s.data.filter isDecimalDigit⟩

/-- Embeds `value.replace(/,/g, '')`. -/
def removeCommas (s : String) : String :=
  ⟨s.data.filter (fun c => c != ',')⟩

/-- Embeds `value.trim()`. -/
def trim (s : String) : String :=
  ⟨((s.data.dropWhile isWhiteSpace).reverse.dropWhile isWhiteSpace).reverse⟩

/-- Embeds `haystack.includes(needle)` on strings: `needle` occurs as a contiguous substring. -/
def includes (haystack needle : String) : Bool :=
  haystack.data.tails.any (fun t => needle.data.isPrefixOf t)

/-- Upper-case table restricted to the ASCII letters, the identity elsewhere. It agrees with
the Unicode table on every ASCII code point and is used to run the embedding on ASCII input. -/
def asciiUpperMap (c : Char) : List Char :=
  [c.toUpper]

/-! ## Numbers -/

/-- The values `parseInt` can return: `NaN`, an infinity, or an integer-valued double given by
sign and magnitude (`finite true 0` is negative zero). -/
inductive JsNumber where
  | nan
  | infinity (negative : Bool)
  | finite (negative : Bool) (magnitude : Nat)
  deriving DecidableEq, Repr

/-- Number of binary digits of `n` (`0` for `n = 0`). -/
def bitLength (n : Nat) : Nat :=
  if n = 0 then 0 else (Nat.toDigits 2 n).length

/-- The double nearest to the natural number `n` (round to nearest, ties to even), as a
magnitude; `none` when the result overflows to infinity, that is when it reaches `2 ^ 1024`
(1025 binary digits). Integers below `2 ^ 53` are exact. -/
def roundToDouble (n : Nat) : Option Nat :=
  if n < 2 ^ 53 then some n
  else
    let e := bitLength n - 53
    let q := n / 2 ^ e
    let r := n % 2 ^ e
    let half := 2 ^ (e - 1)
    let q1 := if half < r ∨ (r = half ∧ q % 2 = 1) then q + 1 else q
    if 1024 < bitLength (q1 * 2 ^ e) then none else some (q1 * 2 ^ e)

/-- Value of `c` as a digit in the given radix, if it is one. -/
def digitValue (radix : Nat) (c : Char) : Option Nat :=
  let v : Option Nat :=
    if 48 ≤ c.toNat ∧ c.toNat ≤ 57 then some (c.toNat - 48)
    else if 97 ≤ c.toNat ∧ c.toNat ≤ 122 then some (c.toNat - 87)
    else if 65 ≤ c.toNat ∧ c.toNat ≤ 90 then some (c.toNat - 55)
    else none
  v.filter (fun d => decide (d < radix))

/-- The longest prefix of radix digits, as digit values. -/
def leadingDigits (radix : Nat) : List Char → List Nat
  | [] => []
  | c :: cs =>
    match digitValue radix c with
    | some d => d :: leadingDigits radix cs
    | none => []

/-- The integer denoted by a list of digit values, most significant first. -/
def digitsToNat (radix : Nat) (ds : List Nat) : Nat :=
  ds.foldl (fun acc d => acc * radix + d) 0

/-- Embeds `parseInt(string)` with no radix argument: leading whitespace is skipped, a sign is
read, a `0x`/`0X` prefix selects radix 16, and the longest digit prefix is converted to the
nearest double. The language lets an engine approximate decimal input beyond its 20th
significant digit; the embedding rounds the exact integer, as the common engines do. -/
def parseInt (s : String) : JsNumber :=
  let body := s.data.dropWhile isWhiteSpace
  let negative := body.head? == some '-'
  let unsigned := if body.head? == some '-' || body.head? == some '+' then body.tail else body
  let hex := decide (unsigned.take 2 = ['0', 'x']) || decide (unsigned.take 2 = ['0', 'X'])
  let radix := if hex then 16 else 10
  let digits := leadingDigits radix (if hex then unsigned.drop 2 else unsigned)
  if digits.isEmpty then JsNumber.nan
  else
    match roundToDouble (digitsToNat radix digits) with
    | some m => JsNumber.finite negative m
    | none => JsNumber.infinity negative

/-- Inserts a comma before every group of three digits counted from the right. -/
def groupThousands : List Char → List Char
  | [] => []
  | c :: cs =>
    if cs.length % 3 = 0 ∧ cs ≠ [] then c :: ',' :: groupThousands cs
    else c :: groupThousands cs

/-- The `en-US` rendering of a natural number: decimal digits with a comma every three. -/
def formatNat (n : Nat) : String :=
  ⟨groupThousands (Nat.toDigits 10 n)⟩

/-- Number of decimal digits of `n`. -/
def decimalLength (n : Nat) : Nat :=
  (Nat.toDigits 10 n).length

/-- The decimal with `k` significant digits and as many digits as `m` that reads back as the
double `m`, if there is one: of the two multiples of the unit of the last kept digit that
enclose `m`, the one that rounds to `m`, the closer one when both do, and on a tie the one whose
last kept digit is even. -/
def shortestCandidate (m k : Nat) : Option Nat :=
  let p := 10 ^ (decimalLength m - k)
  let lo := m / p * p
  let hi := lo + p
  if roundToDouble lo = some m ∧ roundToDouble hi = some m then
    if m - lo < hi - m then some lo
    else if hi - m < m - lo then some hi
    else if lo / p % 2 = 0 then some lo
    else some hi
  else if roundToDouble lo = some m then some lo
  else if roundToDouble hi = some m then some hi
  else none

/-- The integer whose digits an engine prints for the integer-valued double `m`: the decimal
with the fewest significant digits that reads back as `m`, padded with zeros (so `2 ^ 55`,
which is 36028797018963968, prints as 36028797018963970). Up to `2 ^ 53` it is `m` itself. -/
def shortestDecimal (m : Nat) : Nat :=
  (((List.range (decimalLength m)).map (fun k => k + 1)).findSome? (shortestCandidate m)).getD m

/-- Embeds `number.toLocaleString()` under the `en-US` locale for the values of `JsNumber`: the
digits the engine prints for the double, with a comma every three. -/
def toLocaleString : JsNumber → String
  | JsNumber.nan => "NaN"
  | JsNumber.infinity negative => if negative then "-∞" else "∞"
  | JsNumber.finite negative m =>
    if negative then "-" ++ formatNat (shortestDecimal m) else formatNat (shortestDecimal m)

/-! ## Records -/

/-- A field value of an extracted record: the data model maps field names to strings; a field
the service left out reads as `undefined`, and JSON allows `null`. -/
inductive JsValue where
  | undefined
  | null
  | str (s : String)
  deriving DecidableEq, Repr

/-- An extracted record: its own properties in insertion order. -/
abbrev Record := List (String × JsValue)

/-- Embeds the read `record[field]` of an own property; `undefined` when there is none. -/
def getField : Record → String → JsValue
  | [], _ => JsValue.undefined
  | (k, w) :: r, field => if k = field then w else getField r field

/-- Whether `field` is an own property of the record. -/
def hasField : Record → String → Bool
  | [], _ => false
  | (k, _) :: r, field => if k = field then true else hasField r field

/-- The array index a property name denotes, if it is the canonical decimal form of an integer
below `2 ^ 32 - 1`; such names are enumerated first, in ascending order. -/
def arrayIndex? (k : String) : Option Nat :=
  if k.data ≠ [] ∧ k.data.all isDecimalDigit = true ∧
      (k.data.head? ≠ some '0' ∨ k.data.length = 1) then
    if digitsToNat 10 (leadingDigits 10 k.data) < 4294967295 then
      some (digitsToNat 10 (leadingDigits 10 k.data))
    else none
  else none

/-- The own properties of a record in the order in which the language enumerates them
(`Object.keys`, `JSON.stringify`): array indices in ascending order, then the other names in
insertion order. -/
def orderedEntries (r : Record) : Record :=
  ((r.filterMap (fun p => (arrayIndex? p.1).map (fun n => (n, p)))).insertionSort
      (fun a b => a.1 ≤ b.1)).map Prod.snd ++
    r.filter (fun p => (arrayIndex? p.1).isNone)

/-- The order on array indices by which the properties are sorted is total. -/
instance indexOrder_total (α : Type) :
    IsTotal (Nat × α) (fun a b => a.1 ≤ b.1) :=
  ⟨fun a b => Nat.le_total a.1 b.1⟩

/-- The order on array indices by which the properties are sorted is transitive. -/
instance indexOrder_trans (α : Type) :
    IsTrans (Nat × α) (fun a b => a.1 ≤ b.1) :=
  ⟨fun _ _ _ h1 h2 => Nat.le_trans h1 h2⟩

/-- The names of the own properties of a record, in the order in which the language enumerates
them. -/
def fieldNames (r : Record) : List String :=
  (orderedEntries r).map Prod.fst

/-- Defines an own property (as an object literal or a spread does): the value of an existing
property is overwritten in place, a new property goes last. -/
def defineField : Record → String → JsValue → Record
  | [], field, v => [(field, v)]
  | (k, w) :: r, field, v =>
    if k = field then (k, v) :: r else (k, w) :: defineField r field v

/-- Embeds the assignment `record[field] = value` of a string. An own property is overwritten;
otherwise the property is created, except for the name `__proto__`, whose inherited setter
ignores a string and creates nothing. -/
def assignField (r : Record) (field : String) (value : String) : Record :=
  if field = "__proto__" ∧ hasField r field = false then r
  else defineField r field (JsValue.str value)

/-- Embeds `array[index]` for an integer index: `none` (`undefined`) outside the array. -/
def elementAt {α : Type} (xs : List α) (index : Int) : Option α :=
  if index < 0 then none else xs[index.toNat]?

/-! ## JSON text of the seller history -/

/-- One hexadecimal digit, lower case. -/
def hexDigit (n : Nat) : Char :=
  (Nat.toDigits 16 n).headD '0'

/-- The JSON escape of one code point inside a string literal. -/
def quoteJSONChar (c : Char) : List Char :=
  if c.toNat = 34 then [Char.ofNat 92, Char.ofNat 34]
  else if c.toNat = 92 then [Char.ofNat 92, Char.ofNat 92]
  else if c.toNat = 8 then [Char.ofNat 92, 'b']
  else if c.toNat = 9 then [Char.ofNat 92, 't']
  else if c.toNat = 10 then [Char.ofNat 92, 'n']
  else if c.toNat = 12 then [Char.ofNat 92, 'f']
  else if c.toNat = 13 then [Char.ofNat 92, 'r']
  else if c.toNat < 32 then
    [Char.ofNat 92, 'u', '0', '0', hexDigit (c.toNat / 16), hexDigit (c.toNat % 16)]
  else [c]

/-- The JSON string literal of a string. -/
def quoteJSONString (s : String) : String :=
  ⟨[Char.ofNat 34] ++ (s.data.map quoteJSONChar).flatten ++ [Char.ofNat 34]⟩

/-- Embeds `JSON.stringify(sellerHistory)` for an array of strings. -/
def jsonStringify (xs : List String) : String :=
  "[" ++ ",".intercalate (xs.map quoteJSONString) ++ "]"

/-! ## Session state -/

/-- A staged file, as far as the handlers look at it. -/
structure File where
  name : String
  size : Nat
  type : String
  deriving DecidableEq, Repr

/-- A call `showMessage(text, type)`. -/
structure Message where
  text : String
  type : String
  deriving DecidableEq, Repr

/-- The module-level variables and the DOM properties written by the handlers. -/
structure State where
  selectedFiles : List File
  extractedData : List Record
  sellerHistory : List String
  storedSellerHistory : Option String
  processBtnDisabled : Bool
  reviewDisplayed : Bool
  downloadDisplayed : Bool
  messageDisplayed : Bool
  messages : List Message
  deriving DecidableEq, Repr

/-! ## File staging -/

/-- The array `validTypes` of `addFiles`. -/
def validTypes : List String :=
  ["application/pdf", "image/jpeg", "image/jpg", "image/png", "image/tiff", "image/bmp"]

/-- Embeds `updateProcessButton`. -/
def updateProcessButton (s : State) : State :=
  { s with processBtnDisabled := decide (s.selectedFiles.length = 0) }

/-- Embeds `addFiles(files)`. -/
def addFiles (s : State) (files : List File) : State :=
  let validFiles := files.filter (fun file => validTypes.contains file.type)
  updateProcessButton { s with selectedFiles := s.selectedFiles ++ validFiles }

/-- Embeds `array.splice(start, 1)` for an integer `start`: a negative start counts from the
end, the start is clamped to the array, and at most one element is deleted there. -/
def splice {α : Type} (xs : List α) (start : Int) : List α :=
  let len : Int := xs.length
  let actualStart : Int := if start < 0 then max (len + start) 0 else min start len
  xs.eraseIdx actualStart.toNat

/-- Embeds `removeFile(index)`. -/
def removeFile (s : State) (index : Int) : State :=
  updateProcessButton { s with selectedFiles := splice s.selectedFiles index }

/-- Embeds `showMessage(text, type)`; the timer that hides the message later is left out. -/
def showMessage (s : State) (text type : String) : State :=
  { s with messages := s.messages ++ [{ text := text, type := type }], messageDisplayed := true }

/-- Embeds `startOver`. -/
def startOver (s : State) : State :=
  let s1 := updateProcessButton { s with selectedFiles := [], extractedData := [] }
  { s1 with reviewDisplayed := false, downloadDisplayed := false, messageDisplayed := false,
            processBtnDisabled := false }

/-! ## Editing a record -/

/-- Embeds `updateData(rowIndex, field, value)`. A missing row leaves everything as it is.
Otherwise the value is corrected according to the field, a new seller name is put in front of
the history (kept to 10 entries and written to storage), and the value is assigned to the
field of the row. The write-back into the input element is not embedded. -/
def updateData (upperMap : Char → List Char) (s : State) (rowIndex : Int) (field value : String) :
    State :=
  match elementAt s.extractedData rowIndex with
  | none => s
  | some record =>
    let corrected : String × State :=
      if field = "vin" ∧ truthy value = true then
        (removeWhiteSpace (toUpperCase upperMap value), s)
      else if field = "reg" ∧ truthy value = true then
        (removeWhiteSpace (toUpperCase upperMap value), s)
      else if field = "engine_no" ∧ truthy value = true then
        (removeWhiteSpace (toUpperCase upperMap value), s)
      else if field = "odometer" ∧ truthy value = true then
        let numValue := removeNonDigits value
        if truthy numValue = true then (toLocaleString (parseInt numValue), s) else (value, s)
      else if field = "seller_name" ∧ truthy value = true then
        let trimmed := trim value
        if truthy trimmed = true ∧ trimmed ∉ s.sellerHistory then
          let history := (trimmed :: s.sellerHistory).take 10
          (trimmed, { s with sellerHistory := history,
                             storedSellerHistory := some (jsonStringify history) })
        else (trimmed, s)
      else (value, s)
    { corrected.2 with
      extractedData := s.extractedData.set rowIndex.toNat (assignField record field corrected.1) }

/-- The call `updateData(rowIndex, field, value)` as its caller sees it: the body has no
`throw`, so the call completes normally with the new state and reports no error. -/
def updateDataCall (upperMap : Char → List Char) (s : State) (rowIndex : Int)
    (field value : String) : Except String State :=
  Except.ok (updateData upperMap s rowIndex field value)

/-- The call `removeFile(index)` as its caller sees it: `splice` accepts every index and the
body has no `throw`, so the call completes normally with the new state. -/
def removeFileCall (s : State) (index : Int) : Except String State :=
  Except.ok (removeFile s index)

/-! ## Upload -/

/-- One entry of `result.results`: its status, its field map and its optional preview image
reference (`undefined` when the entry has none). -/
structure UploadResult where
  status : String
  data : Record
  thumbnail : JsValue
  deriving DecidableEq, Repr

/-- An error object, as far as the `catch` clause looks at it. -/
structure JsError where
  name : String
  message : String
  deriving DecidableEq, Repr

/-- What the statements `const errorData = await response.json().catch(() => ({}))` and
`new Error(errorData.error || 'Upload failed')` of `src/app.js` find in the body of a response
whose `ok` is false.
* `unreadable`: the body cannot be read or is not JSON text; `response.json()` rejects and
  `errorData` is the `{}` of the handler, which has no `error` member.
* `threw message`: evaluating the argument of `throw` itself throws a `TypeError` with the given
  message, whose wording is the engine's. This is so when the body is the JSON text `null`
  (reading `errorData.error` of `null` throws) and when the `error` member is an object that
  cannot be converted to a string (its own `toString` and `valueOf` members hide the inherited
  functions).
* `noError`: the body is JSON other than `null` (a number, a string, a boolean, an array or an
  object) and its `error` member is absent or falsy (`null`, `false`, zero, the empty string).
* `error text`: the `error` member is truthy and `text` is its conversion to a string: a
  non-empty string is itself, `true` gives `true`, a number its decimal, an array its joined
  elements (the empty text for `[]`), any other object `[object Object]`. -/
inductive ErrorData where
  | unreadable
  | threw (message : String)
  | noError
  | error (text : String)
  deriving DecidableEq, Repr

/-- What the upload request comes back with.
* `rejected e`: `fetch` rejected with `e` (an `AbortError` when the three-minute timer fired,
  a `TypeError` when the server could not be reached).
* `notOk status body`: a response whose `ok` is false, with its HTTP status and what the code
  finds in its body.
* `malformed e`: a 2xx response whose body could not be read as `{ results: [...] }`, so that
  `response.json()` or `result.results.filter` threw `e`.
* `ok results`: a 2xx response with the per-file results. -/
inductive UploadReply where
  | rejected (error : JsError)
  | notOk (status : Nat) (body : ErrorData)
  | malformed (error : JsError)
  | ok (results : List UploadResult)
  deriving DecidableEq, Repr

/-- The statements of `processFiles` before the request is sent. -/
def processFilesBegin (s : State) : State :=
  { s with processBtnDisabled := true }

/-- The `catch` clause of `processFiles` in `src/app.js`. -/
def processFilesCatch (s : State) (error : JsError) : State :=
  let errorMsg :=
    if error.name = "AbortError" then
      "Request timed out after 3 minutes. The server may be overloaded. Please try again with fewer files."
    else if includes error.message "Failed to fetch" = true then
      "Cannot connect to server. The server may be sleeping (free tier). Please wait 60 seconds and try again."
    else "Error processing files: " ++ error.message
  { showMessage s errorMsg "error" with processBtnDisabled := false }

/-- The statements of `processFiles` in `src/app.js` that follow a good response: the records
are replaced by the successful results, each with its thumbnail, and the review is shown unless
there is no record. -/
def processFilesResults (s : State) (results : List UploadResult) : State :=
  let records := (results.filter (fun r => r.status = "success")).map
    (fun r => defineField r.data "thumbnail" r.thumbnail)
  let s1 := { s with extractedData := records }
  if records.length = 0 then
    showMessage s1
      "No data could be extracted from the files. Please check the file quality and try again."
      "error"
  else
    showMessage { s1 with reviewDisplayed := true, downloadDisplayed := true }
      ("Successfully processed " ++ toString records.length ++ " of " ++
        toString s1.selectedFiles.length ++ " files.")
      "success"

/-- The statements of `processFiles` in `src/app.js` from the arrival of the reply on. -/
def processFilesEnd (s : State) (reply : UploadReply) : State :=
  match reply with
  | UploadReply.rejected error => processFilesCatch s error
  | UploadReply.notOk _ body =>
    match body with
    | ErrorData.unreadable => processFilesCatch s { name := "Error", message := "Upload failed" }
    | ErrorData.threw message => processFilesCatch s { name := "TypeError", message := message }
    | ErrorData.noError => processFilesCatch s { name := "Error", message := "Upload failed" }
    | ErrorData.error text => processFilesCatch s { name := "Error", message := text }
  | UploadReply.malformed error => processFilesCatch s error
  | UploadReply.ok results => processFilesResults s results

/-- Embeds `processFiles` of `src/app.js`, run to completion against one reply. -/
def processFiles (s : State) (reply : UploadReply) : State :=
  if s.selectedFiles.length = 0 then s
  else processFilesEnd (processFilesBegin s) reply

/-- The `catch` clause of `processFiles` in `src/web/app.js`. -/
def Web.processFilesCatch (s : State) (error : JsError) : State :=
  { showMessage s ("Error processing files: " ++ error.message) "error" with
    processBtnDisabled := false }

/-- The statements of `processFiles` in `src/web/app.js` that follow a good response: the
records are the field maps of the successful results. -/
def Web.processFilesResults (s : State) (results : List UploadResult) : State :=
  let records := (results.filter (fun r => r.status = "success")).map (fun r => r.data)
  let s1 := { s with extractedData := records }
  if records.length = 0 then
    showMessage s1
      "No data could be extracted from the files. Please check the file quality and try again."
      "error"
  else
    showMessage { s1 with reviewDisplayed := true, downloadDisplayed := true }
      ("Successfully processed " ++ toString records.length ++ " of " ++
        toString s1.selectedFiles.length ++ " files.")
      "success"

/-- The statements of `processFiles` in `src/web/app.js` from the arrival of the reply on. A
response whose `ok` is false throws `new Error('Upload failed')` without reading the body. -/
def Web.processFilesEnd (s : State) (reply : UploadReply) : State :=
  match reply with
  | UploadReply.rejected error => Web.processFilesCatch s error
  | UploadReply.notOk _ _ => Web.processFilesCatch s { name := "Error", message := "Upload failed" }
  | UploadReply.malformed error => Web.processFilesCatch s error
  | UploadReply.ok results => Web.processFilesResults s results

/-- Embeds `processFiles` of `src/web/app.js`, run to completion against one reply. -/
def Web.processFiles (s : State) (reply : UploadReply) : State :=
  if s.selectedFiles.length = 0 then s
  else Web.processFilesEnd (processFilesBegin s) reply

/-! ## Reference notions and sample data -/

/-- The integer whose decimal digits are the digits of `v` in order, every other character
ignored (`0` when `v` has no digit). -/
def decimalValue (v : String) : Nat :=
  (v.data.filter isDecimalDigit).foldl (fun acc c => 10 * acc + (c.toNat - 48)) 0

/-- A session in review with two records and two remembered sellers. -/
def sampleState : State :=
  { selectedFiles := [{ name := "scan1.pdf", size := 1024, type := "application/pdf" },
                      { name := "scan2.png", size := 2048, type := "image/png" }]
    extractedData := [[("seller_name", JsValue.str "Ann"), ("vin", JsValue.str "OLDVIN"),
                       ("odometer", JsValue.str "1"), ("thumbnail", JsValue.undefined)],
                      [("seller_name", JsValue.null), ("vin", JsValue.str ""),
                       ("thumbnail", JsValue.str "data:image/png;base64,AAAA")]]
    sellerHistory := ["Ann", "Bob"]
    storedSellerHistory := some (jsonStringify ["Ann", "Bob"])
    processBtnDisabled := true
    reviewDisplayed := true
    downloadDisplayed := true
    messageDisplayed := false
    messages := [] }

/-- The sample session with nothing remembered yet. -/
def freshState : State :=
  { sampleState with sellerHistory := [], storedSellerHistory := none }

/-- A per-file result list: a success, a failure, a success. -/
def sampleResults : List UploadResult :=
  [{ status := "success", data := [("vin", JsValue.str "A"), ("make", JsValue.str "Audi")],
     thumbnail := JsValue.str "thumbA" },
   { status := "failed", data := [], thumbnail := JsValue.undefined },
   { status := "success", data := [("vin", JsValue.str "B"), ("make", JsValue.null)],
     thumbnail := JsValue.undefined }]

/-- Eleven pairwise distinct seller names. -/
def elevenNames : List String :=
  ["Ann", "Bob", "Cy", "Di", "Ed", "Flo", "Gus", "Hal", "Ida", "Jo", "Kim"]

/-- The value `updateData` assigns to the field of an existing row, as a function of the field
and the raw value: the first component of the pair computed by `updateData`. -/
def storedValue (upperMap : Char → List Char) (field value : String) : String :=
  if field = "vin" ∧ truthy value = true then removeWhiteSpace (toUpperCase upperMap value)
  else if field = "reg" ∧ truthy value = true then removeWhiteSpace (toUpperCase upperMap value)
  else if field = "engine_no" ∧ truthy value = true then
    removeWhiteSpace (toUpperCase upperMap value)
  else if field = "odometer" ∧ truthy value = true then
    if truthy (removeNonDigits value) = true then toLocaleString (parseInt (removeNonDigits value))
    else value
  else if field = "seller_name" ∧ truthy value = true then trim value
  else value

/-! ## Export -/

/-- The constant `API_BASE` of `src/app.js`. -/
def API_BASE : String :=
  "https://ddd-nq4q.onrender.com"

/-- Embeds `apiUrl(path)`. -/
def apiUrl (path : String) : String :=
  API_BASE ++ (if path.data.head? = some '/' then "" else "/") ++ path

/-- The JSON member `"name":value` of one property; a property whose value is `undefined` is
left out. -/
def jsonMember (p : String × JsValue) : Option String :=
  match p.2 with
  | JsValue.undefined => none
  | JsValue.null => some (quoteJSONString p.1 ++ ":null")
  | JsValue.str w => some (quoteJSONString p.1 ++ ":" ++ quoteJSONString w)

/-- The members of the JSON object of a record, in order. -/
def recordMembers (r : Record) : List String :=
  (orderedEntries r).filterMap jsonMember

/-- Embeds `JSON.stringify` on one record. -/
def jsonStringifyRecord (r : Record) : String :=
  String.singleton (Char.ofNat 123) ++ ",".intercalate (recordMembers r) ++
    String.singleton (Char.ofNat 125)

/-- Embeds `JSON.stringify({ data: extractedData })`. -/
def exportBody (records : List Record) : String :=
  String.singleton (Char.ofNat 123) ++ quoteJSONString "data" ++ ":[" ++
    ",".intercalate (records.map jsonStringifyRecord) ++ "]" ++ String.singleton (Char.ofNat 125)

/-- The arguments of a `fetch` call of an export. -/
structure Request where
  url : String
  method : String
  contentType : String
  body : String
  deriving DecidableEq, Repr

/-- What an export request comes back with: `fetch` or `response.blob()` rejected with an
error, the response was not ok, or the artifact arrived. -/
inductive ExportReply where
  | rejected (error : JsError)
  | notOk
  | ok
  deriving DecidableEq, Repr

/-- The request sent by `downloadExcel`. -/
def downloadExcelRequest (s : State) : Request :=
  { url := apiUrl "/api/generate-excel", method := "POST", contentType := "application/json",
    body := exportBody s.extractedData }

/-- The request sent by `downloadSinglePDF`. -/
def downloadSinglePDFRequest (s : State) : Request :=
  { url := apiUrl "/api/generate-single-pdf", method := "POST",
    contentType := "application/json", body := exportBody s.extractedData }

/-- The request sent by `downloadPDFs`. -/
def downloadPDFsRequest (s : State) : Request :=
  { url := apiUrl "/api/generate-pdfs", method := "POST", contentType := "application/json",
    body := exportBody s.extractedData }

/-- The state after an export handler has run against one reply: a success or an error
message, built from the texts of the handler. -/
def exportDone (s : State) (reply : ExportReply) (success failure notOkText : String) : State :=
  match reply with
  | ExportReply.ok => showMessage s success "success"
  | ExportReply.notOk => showMessage s (failure ++ notOkText) "error"
  | ExportReply.rejected error => showMessage s (failure ++ error.message) "error"

/-- Embeds `downloadExcel`, run to completion against one reply. -/
def downloadExcel (s : State) (reply : ExportReply) : State :=
  exportDone s reply "Excel file downloaded successfully!" "Error generating Excel: "
    "Excel generation failed"

/-- Embeds `downloadSinglePDF`, run to completion against one reply. -/
def downloadSinglePDF (s : State) (reply : ExportReply) : State :=
  exportDone s reply "Single PDF downloaded successfully!" "Error generating single PDF: "
    "Single PDF generation failed"

/-- Embeds `downloadPDFs`, run to completion against one reply. -/
def downloadPDFs (s : State) (reply : ExportReply) : State :=
  exportDone s reply "PDF declarations downloaded successfully!" "Error generating PDFs: "
    "PDF generation failed"

/-! ## Upload scenarios -/

/-- The states a session can be in while an upload started in `start` is outstanding: the
state right after the request was sent, and every state reached from there by staging files,
removing a staged file or editing a record. -/
inductive Pending (upperMap : Char → List Char) (start : State) : State → Prop where
  | sent : Pending upperMap start (processFilesBegin start)
  | addFiles (s : State) (files : List File) :
      Pending upperMap start s → Pending upperMap start (addFiles s files)
  | removeFile (s : State) (index : Int) :
      Pending upperMap start s → Pending upperMap start (removeFile s index)
  | updateData (s : State) (rowIndex : Int) (field value : String) :
      Pending upperMap start s → Pending upperMap start (updateData upperMap s rowIndex field value)

/-- The session states the handlers can reach: a reset gives an idle session, from which files
are staged or removed, records are edited, and an upload is run to completion when the process
button is enabled. -/
inductive Reachable (upperMap : Char → List Char) : State → Prop where
  | reset (s : State) : Reachable upperMap (startOver s)
  | addFiles (s : State) (files : List File) :
      Reachable upperMap s → Reachable upperMap (addFiles s files)
  | removeFile (s : State) (index : Int) :
      Reachable upperMap s → Reachable upperMap (removeFile s index)
  | updateData (s : State) (rowIndex : Int) (field value : String) :
      Reachable upperMap s → Reachable upperMap (updateData upperMap s rowIndex field value)
  | processFiles (s : State) (reply : UploadReply) :
      Reachable upperMap s → s.processBtnDisabled = false →
      Reachable upperMap (processFiles s reply)

/-- A session right after a reset in which one PDF has been staged. -/
def stagedState : State :=
  addFiles (startOver sampleState) [{ name := "scan1.pdf", size := 1024, type := "application/pdf" }]

/-- The staged session after an upload in which the file was extracted: the review is shown. -/
def reviewingState : State :=
  processFiles stagedState
    (UploadReply.ok [{ status := "success", data := [("vin", JsValue.str "A")],
                       thumbnail := JsValue.undefined }])

/-- The reviewing session after one more file has been staged. -/
def restagedState : State :=
  addFiles reviewingState [{ name := "scan2.png", size := 2048, type := "image/png" }]

/-- A reply in which no file was extracted. -/
def noSuccessReply : UploadReply :=
  UploadReply.ok [{ status := "failed", data := [], thumbnail := JsValue.undefined },
                  { status := "failed", data := [], thumbnail := JsValue.undefined }]

/-- The text of the message shown when no record was extracted. -/
def noDataText : String :=
  "No data could be extracted from the files. Please check the file quality and try again."

/-- The text of the message shown when the request was aborted by the timer. -/
def timeoutText : String :=
  "Request timed out after 3 minutes. The server may be overloaded. Please try again with fewer files."

/-! ## Loading the seller history -/

/-- A JSON value as `JSON.parse` returns it; a number is kept as its text. -/
inductive Json where
  | null
  | bool (b : Bool)
  | num (text : String)
  | str (s : String)
  | arr (items : List Json)
  | obj (members : List (String × Json))

/-- JSON whitespace: tab, line feed, carriage return, space. -/
def isJsonSpace (c : Char) : Bool :=
  c.toNat == 9 || c.toNat == 10 || c.toNat == 13 || c.toNat == 32

/-- The UTF-16 code units of a code point. -/
def codeUnits (c : Char) : List Nat :=
  if c.toNat < 65536 then [c.toNat]
  else [55296 + (c.toNat - 65536) / 1024, 56320 + (c.toNat - 65536) % 1024]

/-- The code point of one code unit that is not part of a surrogate pair. A lone surrogate has
no counterpart among the code points and is read as U+FFFD. -/
def unitChar (u : Nat) : Char :=
  if 55296 ≤ u ∧ u < 57344 then Char.ofNat 65533 else Char.ofNat u

/-- The code points of a sequence of UTF-16 code units, given the high surrogate that is
waiting for its low surrogate, if any. -/
def decodeUnitsFrom : Option Nat → List Nat → List Char
  | none, [] => []
  | some _, [] => [Char.ofNat 65533]
  | none, u :: rest =>
    if 55296 ≤ u ∧ u < 56320 then decodeUnitsFrom (some u) rest
    else unitChar u :: decodeUnitsFrom none rest
  | some h, u :: rest =>
    if 56320 ≤ u ∧ u < 57344 then
      Char.ofNat (65536 + (h - 55296) * 1024 + (u - 56320)) :: decodeUnitsFrom none rest
    else if 55296 ≤ u ∧ u < 56320 then Char.ofNat 65533 :: decodeUnitsFrom (some u) rest
    else Char.ofNat 65533 :: unitChar u :: decodeUnitsFrom none rest

/-- The code points of a sequence of UTF-16 code units. -/
def decodeUnits (units : List Nat) : List Char :=
  decodeUnitsFrom none units

/-- The value of four hexadecimal digits. -/
def hex4 (a b c d : Char) : Option Nat :=
  match digitValue 16 a, digitValue 16 b, digitValue 16 c, digitValue 16 d with
  | some x, some y, some z, some w => some (((x * 16 + y) * 16 + z) * 16 + w)
  | _, _, _, _ => none

/-- Reads a JSON string literal after its opening quote: the code units read so far are in
`acc`, in reverse; the result is the string and the input after the closing quote. -/
def parseStringRest : List Char → List Nat → Option (String × List Char)
  | [], _ => none
  | c :: rest, acc =>
    if c.toNat = 34 then some (⟨decodeUnits acc.reverse⟩, rest)
    else if c.toNat = 92 then
      match rest with
      | [] => none
      | e :: rest2 =>
        if e.toNat = 34 then parseStringRest rest2 (34 :: acc)
        else if e.toNat = 92 then parseStringRest rest2 (92 :: acc)
        else if e = '/' then parseStringRest rest2 (47 :: acc)
        else if e = 'b' then parseStringRest rest2 (8 :: acc)
        else if e = 'f' then parseStringRest rest2 (12 :: acc)
        else if e = 'n' then parseStringRest rest2 (10 :: acc)
        else if e = 'r' then parseStringRest rest2 (13 :: acc)
        else if e = 't' then parseStringRest rest2 (9 :: acc)
        else if e = 'u' then
          match rest2 with
          | a :: b :: c2 :: d :: rest3 =>
            match hex4 a b c2 d with
            | some u => parseStringRest rest3 (u :: acc)
            | none => none
          | _ => none
        else none
    else if c.toNat < 32 then none
    else parseStringRest rest ((codeUnits c).reverse ++ acc)

/-- The longest prefix of decimal digits and the rest. -/
def spanDigits (cs : List Char) : List Char × List Char :=
  (cs.takeWhile isDecimalDigit, cs.dropWhile isDecimalDigit)

/-- Reads a JSON number: an optional minus sign, an integer part without a leading zero, an
optional fraction and an optional exponent. The result is its text and the rest. -/
def parseNumber (cs : List Char) : Option (String × List Char) :=
  let sign := if cs.head? = some '-' then ['-'] else []
  let afterSign := if cs.head? = some '-' then cs.tail else cs
  let intPart := (spanDigits afterSign).1
  if intPart = [] then none
  else
    let intText := if intPart.head? = some '0' then ['0'] else intPart
    let afterInt :=
      if intPart.head? = some '0' then afterSign.tail else (spanDigits afterSign).2
    let frac : Option (List Char × List Char) :=
      if afterInt.head? = some '.' then
        if (spanDigits afterInt.tail).1 = [] then none
        else some ('.' :: (spanDigits afterInt.tail).1, (spanDigits afterInt.tail).2)
      else some ([], afterInt)
    match frac with
    | none => none
    | some (fracText, afterFrac) =>
      if afterFrac.head? = some 'e' ∨ afterFrac.head? = some 'E' then
        let afterE := afterFrac.tail
        let signText :=
          if afterE.head? = some '+' ∨ afterE.head? = some '-' then afterE.take 1 else []
        let afterExpSign :=
          if afterE.head? = some '+' ∨ afterE.head? = some '-' then afterE.tail else afterE
        if (spanDigits afterExpSign).1 = [] then none
        else
          some (⟨sign ++ intText ++ fracText ++ afterFrac.take 1 ++ signText ++
                  (spanDigits afterExpSign).1⟩, (spanDigits afterExpSign).2)
      else some (⟨sign ++ intText ++ fracText⟩, afterFrac)

mutual

/-- Reads one JSON value; leading whitespace has been skipped. -/
def parseValue : Nat → List Char → Option (Json × List Char)
  | 0, _ => none
  | fuel + 1, cs =>
    match cs with
    | [] => none
    | c :: rest =>
      if c.toNat = 34 then
        (parseStringRest rest []).map (fun p => (Json.str p.1, p.2))
      else if c.toNat = 91 then
        match rest.dropWhile isJsonSpace with
        | [] => none
        | d :: rest2 =>
          if d.toNat = 93 then some (Json.arr [], rest2)
          else (parseItems fuel (d :: rest2)).map (fun p => (Json.arr p.1, p.2))
      else if c.toNat = 123 then
        match rest.dropWhile isJsonSpace with
        | [] => none
        | d :: rest2 =>
          if d.toNat = 125 then some (Json.obj [], rest2)
          else (parseMembers fuel (d :: rest2)).map (fun p => (Json.obj p.1, p.2))
      else if cs.take 4 = ['t', 'r', 'u', 'e'] then some (Json.bool true, cs.drop 4)
      else if cs.take 5 = ['f', 'a', 'l', 's', 'e'] then some (Json.bool false, cs.drop 5)
      else if cs.take 4 = ['n', 'u', 'l', 'l'] then some (Json.null, cs.drop 4)
      else (parseNumber cs).map (fun p => (Json.num p.1, p.2))

/-- Reads the items of a non-empty array up to and including the closing bracket. -/
def parseItems : Nat → List Char → Option (List Json × List Char)
  | 0, _ => none
  | fuel + 1, cs =>
    match parseValue fuel cs with
    | none => none
    | some (v, rest) =>
      match rest.dropWhile isJsonSpace with
      | [] => none
      | d :: rest2 =>
        if d.toNat = 93 then some ([v], rest2)
        else if d.toNat = 44 then
          (parseItems fuel (rest2.dropWhile isJsonSpace)).map (fun p => (v :: p.1, p.2))
        else none

/-- Reads the members of a non-empty object up to and including the closing brace. -/
def parseMembers : Nat → List Char → Option (List (String × Json) × List Char)
  | 0, _ => none
  | fuel + 1, cs =>
    match cs with
    | [] => none
    | q :: afterQuote =>
      if q.toNat = 34 then
        match parseStringRest afterQuote [] with
        | none => none
        | some (name, rest) =>
          match rest.dropWhile isJsonSpace with
          | [] => none
          | colon :: rest1 =>
            if colon.toNat = 58 then
              match parseValue fuel (rest1.dropWhile isJsonSpace) with
              | none => none
              | some (v, rest2) =>
                match rest2.dropWhile isJsonSpace with
                | [] => none
                | d :: rest3 =>
                  if d.toNat = 125 then some ([(name, v)], rest3)
                  else if d.toNat = 44 then
                    (parseMembers fuel (rest3.dropWhile isJsonSpace)).map
                      (fun p => ((name, v) :: p.1, p.2))
                  else none
            else none
      else none

end

/-- Embeds `JSON.parse(text)`: the value the text denotes, `none` when the text is not JSON,
where `JSON.parse` throws a `SyntaxError`. Every nested call reads at least one character, so
the recursion budget is never exhausted. -/
def jsonParse (text : String) : Option Json :=
  match parseValue (2 * text.data.length + 4) (text.data.dropWhile isJsonSpace) with
  | none => none
  | some (v, rest) => if rest.dropWhile isJsonSpace = [] then some v else none

/-- The strings of a JSON array of strings; `none` for every other value. -/
def asStrings : Json → Option (List String)
  | Json.arr items =>
    items.mapM (fun j => match j with
      | Json.str s => some s
      | _ => none)
  | _ => none

/-- The outcome of the statement that initialises `sellerHistory`: `JSON.parse` threw and the
script stopped, or the variable holds an array of strings, or it holds another value. -/
inductive Loaded where
  | threw
  | history (names : List String)
  | other
  deriving DecidableEq, Repr

/-- Embeds `JSON.parse(localStorage.getItem('sellerHistory') || '[]')`, given the stored item
(`none` when the key is absent). -/
def loadSellerHistory (item : Option String) : Loaded :=
  let text := match item with
    | some t => if truthy t = true then t else "[]"
    | none => "[]"
  match jsonParse text with
  | none => Loaded.threw
  | some j =>
    match asStrings j with
    | some names => Loaded.history names
    | none => Loaded.other

/-! ## The value an export body denotes -/

/-- The member that a property stands for in the JSON object of its record: none for a property
whose value is `undefined`, otherwise its name with `null` or with its string. -/
def memberJson (p : String × JsValue) : Option (String × Json) :=
  match p.2 with
  | JsValue.undefined => none
  | JsValue.null => some (p.1, Json.null)
  | JsValue.str w => some (p.1, Json.str w)

/-- The JSON value of a record: an object with one member for each own property whose value is
not `undefined`, in enumeration order. -/
def recordJson (r : Record) : Json :=
  Json.obj ((orderedEntries r).filterMap memberJson)

/-- The JSON value of `{ data: records }`: an object whose only member, `data`, is the array of
the JSON values of the records, in order. -/
def bodyJson (records : List Record) : Json :=
  Json.obj [("data", Json.arr (records.map recordJson))]

/-! ## Review table -/

/-- Embeds the odometer text that `displayDataTable` puts into the input of a record,
`data.odometer ? parseInt(data.odometer.toString().replace(/,/g, '')).toLocaleString() : ''`
(`src/web/app.js` computes the same in two statements): a missing, `null` or empty value gives
the empty text, any other string is parsed with its commas removed and formatted. -/
def displayOdometer (value : JsValue) : String :=
  match value with
  | JsValue.str s => if truthy s = true then toLocaleString (parseInt (removeCommas s)) else ""
  | _ => ""

/-! ## Auxiliary facts -/

theorem truthy_eq_false_iff (s : String) : truthy s = false ↔ s = "" := by
  cases s with
  | mk d =>
    cases d with
    | nil => simp [truthy]
    | cons c cs =>
      simp [truthy]
      intro h
      have := congrArg String.data h
      simp at this

theorem truthy_eq_true_iff (s : String) : truthy s = true ↔ s ≠ "" := by
  rw [Ne, ← truthy_eq_false_iff]
  cases truthy s <;> simp

theorem elementAt_of_valid {α : Type} (xs : List α) (i : Int) (h0 : 0 ≤ i)
    (h1 : i < xs.length) : ∃ x, elementAt xs i = some x := by
  have hlt : i.toNat < xs.length := by omega
  refine ⟨xs[i.toNat], ?_⟩
  simp [elementAt, not_lt.mpr h0, List.getElem?_eq_getElem hlt]

theorem elementAt_of_invalid {α : Type} (xs : List α) (i : Int)
    (h : i < 0 ∨ (xs.length : Int) ≤ i) : elementAt xs i = none := by
  unfold elementAt
  split
  · rfl
  · have hge : xs.length ≤ i.toNat := by omega
    simp [List.getElem?_eq_none hge]

theorem elementAt_set {α : Type} (xs : List α) (i : Int) (x : α) (h0 : 0 ≤ i)
    (h1 : i < xs.length) : elementAt (xs.set i.toNat x) i = some x := by
  have hlt : i.toNat < xs.length := by omega
  simp [elementAt, not_lt.mpr h0, hlt]

theorem getField_defineField_same (r : Record) (field : String) (v : JsValue) :
    getField (defineField r field v) field = v := by
  induction r with
  | nil => simp [defineField, getField]
  | cons p r ih =>
    obtain ⟨k, w⟩ := p
    by_cases hk : k = field
    · simp [defineField, getField, hk]
    · simp [defineField, getField, hk, ih]

theorem getField_defineField_other (r : Record) (field other : String) (v : JsValue)
    (h : other ≠ field) : getField (defineField r field v) other = getField r other := by
  induction r with
  | nil => simp [defineField, getField, h.symm]
  | cons p r ih =>
    obtain ⟨k, w⟩ := p
    by_cases hk : k = field
    · subst hk
      simp [defineField, getField, h.symm]
    · by_cases hko : k = other
      · subst hko
        simp [defineField, getField, hk]
      · simp [defineField, getField, hk, hko, ih]

theorem getField_assignField_same (r : Record) (field value : String)
    (h : field ≠ "__proto__") : getField (assignField r field value) field = JsValue.str value := by
  simp [assignField, h, getField_defineField_same]

theorem isWhiteSpace_of_isDecimalDigit (c : Char) (h : isDecimalDigit c = true) :
    isWhiteSpace c = false := by
  simp only [isDecimalDigit, Bool.and_eq_true, decide_eq_true_eq] at h
  simp only [isWhiteSpace, Bool.or_eq_false_iff, Bool.and_eq_false_iff, beq_eq_false_iff_ne,
    decide_eq_false_iff_not]
  omega

theorem digitValue_of_isDecimalDigit (c : Char) (h : isDecimalDigit c = true) :
    digitValue 10 c = some (c.toNat - 48) := by
  simp only [isDecimalDigit, Bool.and_eq_true, decide_eq_true_eq] at h
  have hlt : c.toNat - 48 < 10 := by omega
  simp [digitValue, h, Option.filter, hlt]

theorem leadingDigits_of_digits (cs : List Char) (h : ∀ c ∈ cs, isDecimalDigit c = true) :
    leadingDigits 10 cs = cs.map (fun c => c.toNat - 48) := by
  induction cs with
  | nil => rfl
  | cons c cs ih =>
    have hc := digitValue_of_isDecimalDigit c (h c (by simp))
    have ht : ∀ d ∈ cs, isDecimalDigit d = true := fun d hd => h d (by simp [hd])
    simp [leadingDigits, hc, ih ht]

theorem digitsToNat_map (cs : List Char) :
    digitsToNat 10 (cs.map (fun c => c.toNat - 48)) =
      cs.foldl (fun acc c => 10 * acc + (c.toNat - 48)) 0 := by
  simp only [digitsToNat, List.foldl_map]
  congr 1
  funext acc c
  omega

theorem roundToDouble_exact (n : Nat) (h : n ≤ 2 ^ 53) : roundToDouble n = some n := by
  rcases Nat.lt_or_ge n (2 ^ 53) with hlt | hge
  · unfold roundToDouble
    rw [if_pos hlt]
  · have : n = 2 ^ 53 := by omega
    subst this
    decide

/-- On a non-empty string of decimal digits `parseInt` reads every digit and returns the double
nearest to the integer they denote. -/
theorem parseInt_digits (cs : List Char) (hne : cs ≠ [])
    (h : ∀ c ∈ cs, isDecimalDigit c = true) :
    parseInt ⟨cs⟩ =
      match roundToDouble (cs.foldl (fun acc c => 10 * acc + (c.toNat - 48)) 0) with
      | some m => JsNumber.finite false m
      | none => JsNumber.infinity false := by
  obtain ⟨c, cs, rfl⟩ := List.exists_cons_of_ne_nil hne
  have hc : isDecimalDigit c = true := h c (by simp)
  have hws := isWhiteSpace_of_isDecimalDigit c hc
  have hc' := hc
  simp only [isDecimalDigit, Bool.and_eq_true, decide_eq_true_eq] at hc'
  have hminus : c ≠ '-' := by
    intro hh; subst hh; revert hc; decide
  have hplus : c ≠ '+' := by
    intro hh; subst hh; revert hc; decide
  have hx : ∀ d ∈ cs, d ≠ 'x' ∧ d ≠ 'X' := by
    intro d hd
    have hdig := h d (by simp [hd])
    constructor
    · intro hh; subst hh; revert hdig; decide
    · intro hh; subst hh; revert hdig; decide
  have hhex : (decide ((c :: cs).take 2 = ['0', 'x']) || decide ((c :: cs).take 2 = ['0', 'X']))
      = false := by
    cases cs with
    | nil => simp
    | cons d ds =>
      have := hx d (by simp)
      simp [this.1, this.2]
  have hlead := leadingDigits_of_digits (c :: cs) h
  have hdrop : (c :: cs).dropWhile isWhiteSpace = c :: cs := by
    simp [List.dropWhile, hws]
  have h1 : (some c == some '-') = false := by simp [hminus]
  have h2 : (some c == some '+') = false := by simp [hplus]
  unfold parseInt
  simp only [hdrop, List.head?_cons, h1, h2, Bool.or_false, Bool.false_eq_true, if_false, hhex,
    hlead, digitsToNat_map]
  simp

/-- The seller history after an edit: a new, non-empty trimmed seller name typed into an
existing row goes to the front and the list is cut to 10 entries; every other call leaves the
history as it is. -/
theorem updateData_sellerHistory (upperMap : Char → List Char) (s : State) (i : Int)
    (field v : String) :
    (updateData upperMap s i field v).sellerHistory =
      if (elementAt s.extractedData i).isSome = true ∧ field = "seller_name" ∧
          truthy v = true ∧ truthy (trim v) = true ∧ trim v ∉ s.sellerHistory then
        (trim v :: s.sellerHistory).take 10
      else s.sellerHistory := by
  unfold updateData
  cases hr : elementAt s.extractedData i with
  | none => simp
  | some r =>
    by_cases hf : field = "seller_name"
    · subst hf
      by_cases hv : truthy v = true
      · by_cases ht : truthy (trim v) = true ∧ trim v ∉ s.sellerHistory
        · simp [hv, ht]
        · simp only [hv, ht]
          simp
      · simp [hv]
    · simp only [hf, false_and, and_false, if_false]
      split_ifs <;> rfl

theorem updateData_length (upperMap : Char → List Char) (s : State) (i : Int)
    (field v : String) :
    (updateData upperMap s i field v).extractedData.length = s.extractedData.length := by
  unfold updateData
  cases hr : elementAt s.extractedData i with
  | none => rfl
  | some r => simp

theorem take_append_take {α : Type} (k : Nat) (a b : List α) :
    (a ++ b.take k).take k = (a ++ b).take k := by
  rw [List.take_append_eq_append_take, List.take_append_eq_append_take, List.take_take]
  congr 2
  omega

/-- Typing a run of new seller names into a valid row: the history is the run, most recent
first, followed by the old history, cut to 10 entries. -/
theorem foldl_updateData_sellerHistory (upperMap : Char → List Char) (i : Int) (ns : List String) :
    ∀ s : State, 0 ≤ i → i < s.extractedData.length → s.sellerHistory.length ≤ 10 → ns.Nodup →
      (∀ n ∈ ns, n ≠ "" ∧ trim n = n ∧ n ∉ s.sellerHistory) →
      (ns.foldl (fun st n => updateData upperMap st i "seller_name" n) s).sellerHistory =
        (ns.reverse ++ s.sellerHistory).take 10 := by
  induction ns with
  | nil =>
    intro s _ _ hlen _ _
    simp [List.take_of_length_le hlen]
  | cons n ns ih =>
    intro s h0 h1 _ hnd hall
    obtain ⟨x, hx⟩ := elementAt_of_valid s.extractedData i h0 h1
    have hn := hall n (by simp)
    have hstep : (updateData upperMap s i "seller_name" n).sellerHistory =
        (n :: s.sellerHistory).take 10 := by
      rw [updateData_sellerHistory]
      have ht : truthy n = true := (truthy_eq_true_iff n).mpr hn.1
      simp [hx, hn.2.1, ht, hn.2.2]
    have hnd' := List.nodup_cons.mp hnd
    rw [List.foldl_cons, ih (updateData upperMap s i "seller_name" n) h0
      (by rw [updateData_length]; exact h1) (by rw [hstep]; simp [List.length_take]) hnd'.2]
    · rw [hstep, take_append_take]
      simp
    · intro m hm
      have hm' := hall m (by simp [hm])
      refine ⟨hm'.1, hm'.2.1, ?_⟩
      rw [hstep]
      intro hin
      have := List.mem_of_mem_take hin
      rcases List.mem_cons.mp this with h | h
      · exact hnd'.1 (h ▸ hm)
      · exact hm'.2.2 h

/-! ### Decimal and binary digits -/

theorem toDigitsCore_append (b : Nat) (fuel : Nat) :
    ∀ (n : Nat) (ds : List Char),
      Nat.toDigitsCore b fuel n ds = Nat.toDigitsCore b fuel n [] ++ ds := by
  induction fuel with
  | zero => intro n ds; simp [Nat.toDigitsCore]
  | succ fuel ih =>
    intro n ds
    simp only [Nat.toDigitsCore]
    split
    · simp
    · rw [ih (n / b) (Nat.digitChar (n % b) :: ds), ih (n / b) [Nat.digitChar (n % b)]]
      simp

theorem digitChar_decimal (d : Nat) (h : d < 10) :
    isDecimalDigit (Nat.digitChar d) = true ∧ (Nat.digitChar d).toNat - 48 = d := by
  interval_cases d <;> decide

theorem toDigitsCore_decimal (fuel : Nat) :
    ∀ n : Nat, n < fuel →
      (∀ c ∈ Nat.toDigitsCore 10 fuel n [], isDecimalDigit c = true) ∧
      Nat.toDigitsCore 10 fuel n [] ≠ [] ∧
      (Nat.toDigitsCore 10 fuel n []).foldl (fun acc c => 10 * acc + (c.toNat - 48)) 0 = n := by
  induction fuel with
  | zero => intro n h; omega
  | succ fuel ih =>
    intro n h
    have hd := digitChar_decimal (n % 10) (Nat.mod_lt n (by decide))
    simp only [Nat.toDigitsCore]
    split
    · rename_i hz
      refine ⟨?_, by simp, ?_⟩
      · intro c hc
        simp only [List.mem_singleton] at hc
        rw [hc]
        exact hd.1
      · simp only [List.foldl_cons, List.foldl_nil, hd.2]
        omega
    · rename_i hz
      have hlt : n / 10 < fuel := by omega
      obtain ⟨h1, h2, h3⟩ := ih (n / 10) hlt
      rw [toDigitsCore_append]
      refine ⟨?_, by simp, ?_⟩
      · intro c hc
        rcases List.mem_append.mp hc with hc | hc
        · exact h1 c hc
        · simp only [List.mem_singleton] at hc
          rw [hc]
          exact hd.1
      · rw [List.foldl_append, h3]
        simp only [List.foldl_cons, List.foldl_nil, hd.2]
        omega

theorem toDigits_decimal (n : Nat) :
    (∀ c ∈ Nat.toDigits 10 n, isDecimalDigit c = true) ∧ Nat.toDigits 10 n ≠ [] ∧
    (Nat.toDigits 10 n).foldl (fun acc c => 10 * acc + (c.toNat - 48)) 0 = n :=
  toDigitsCore_decimal (n + 1) n (Nat.lt_succ_self n)

theorem toDigitsCore_binary_length (fuel : Nat) :
    ∀ n : Nat, 0 < n → n < fuel →
      2 ^ ((Nat.toDigitsCore 2 fuel n []).length - 1) ≤ n ∧
      n < 2 ^ (Nat.toDigitsCore 2 fuel n []).length := by
  induction fuel with
  | zero => intro n _ h; omega
  | succ fuel ih =>
    intro n hpos h
    simp only [Nat.toDigitsCore]
    split
    · rename_i hz
      have : n = 1 := by omega
      subst this
      simp
    · rename_i hz
      have hlt : n / 2 < fuel := by omega
      have hmpos : 0 < n / 2 := by omega
      obtain ⟨h1, h2⟩ := ih (n / 2) hmpos hlt
      rw [toDigitsCore_append]
      simp only [List.length_append, List.length_singleton, Nat.add_sub_cancel]
      generalize (Nat.toDigitsCore 2 fuel (n / 2) []).length = K at h1 h2
      have hK : 1 ≤ K := by
        by_contra hK0
        have : K = 0 := by omega
        subst this
        simp at h2
        omega
      obtain ⟨k, rfl⟩ : ∃ k, K = k + 1 := ⟨K - 1, by omega⟩
      simp only [Nat.add_sub_cancel] at h1
      rw [pow_succ] at h2 ⊢
      rw [pow_succ]
      constructor <;> omega

theorem bitLength_bounds (n : Nat) (hpos : 0 < n) :
    2 ^ (bitLength n - 1) ≤ n ∧ n < 2 ^ bitLength n := by
  have hne : n ≠ 0 := by omega
  simp only [bitLength, hne, if_false, Nat.toDigits]
  exact toDigitsCore_binary_length (n + 1) n hpos (Nat.lt_succ_self n)

theorem bitLength_eq (n k : Nat) (h1 : 2 ^ k ≤ n) (h2 : n < 2 ^ (k + 1)) :
    bitLength n = k + 1 := by
  have hpos : 0 < n := lt_of_lt_of_le (Nat.two_pow_pos k) h1
  obtain ⟨b1, b2⟩ := bitLength_bounds n hpos
  have hlt1 : k < bitLength n :=
    (Nat.pow_lt_pow_iff_right (by decide : 1 < 2)).mp (lt_of_le_of_lt h1 b2)
  have hlt2 : bitLength n - 1 < k + 1 :=
    (Nat.pow_lt_pow_iff_right (by decide : 1 < 2)).mp (lt_of_le_of_lt b1 h2)
  omega

/-! ### Rounding to a double is idempotent -/

theorem roundToDouble_mul_pow (q e : Nat) (hq1 : 2 ^ 52 ≤ q) (hq2 : q < 2 ^ 53) :
    roundToDouble (q * 2 ^ e) =
      if 1024 < bitLength (q * 2 ^ e) then none else some (q * 2 ^ e) := by
  have hpos : 0 < 2 ^ e := Nat.two_pow_pos e
  have hlow : 2 ^ (52 + e) ≤ q * 2 ^ e := by
    rw [pow_add]
    exact Nat.mul_le_mul_right _ hq1
  have hhigh : q * 2 ^ e < 2 ^ (52 + e + 1) := by
    have : 2 ^ (52 + e + 1) = 2 ^ 53 * 2 ^ e := by
      rw [← pow_add]
      congr 1
      omega
    rw [this]
    exact Nat.mul_lt_mul_of_pos_right hq2 hpos
  have hbits : bitLength (q * 2 ^ e) = 52 + e + 1 := bitLength_eq _ _ hlow hhigh
  cases e with
  | zero =>
    simp only [pow_zero, Nat.mul_one] at hbits ⊢
    have hle : ¬ 1024 < bitLength q := by omega
    simp only [hle, if_false]
    unfold roundToDouble
    rw [if_pos hq2]
  | succ e =>
    have hge : ¬ q * 2 ^ (e + 1) < 2 ^ 53 := by
      have h53 : 2 ^ 53 ≤ 2 ^ (52 + (e + 1)) :=
        Nat.pow_le_pow_right (by decide) (by omega)
      omega
    have hexp : bitLength (q * 2 ^ (e + 1)) - 53 = e + 1 := by omega
    have hdiv : q * 2 ^ (e + 1) / 2 ^ (e + 1) = q := Nat.mul_div_cancel q hpos
    have hmod : q * 2 ^ (e + 1) % 2 ^ (e + 1) = 0 := Nat.mul_mod_left q _
    have hhalf : 0 < 2 ^ (e + 1 - 1) := Nat.two_pow_pos _
    have hcond : ¬ (2 ^ (e + 1 - 1) < 0 ∨ (0 = 2 ^ (e + 1 - 1) ∧ q % 2 = 1)) := by
      omega
    unfold roundToDouble
    rw [if_neg hge]
    simp only [hexp, hdiv, hmod, hcond, if_false]

theorem roundToDouble_idem (n m : Nat) (h : roundToDouble n = some m) :
    roundToDouble m = some m := by
  by_cases hlt : n < 2 ^ 53
  · have hn : roundToDouble n = some n := by
      unfold roundToDouble
      rw [if_pos hlt]
    rw [hn] at h
    cases h
    exact hn
  · have hpos : 0 < n := by
      have : 0 < 2 ^ 53 := Nat.two_pow_pos 53
      omega
    obtain ⟨b1, b2⟩ := bitLength_bounds n hpos
    have hB : 54 ≤ bitLength n := by
      by_contra hB
      have : 2 ^ bitLength n ≤ 2 ^ 53 := Nat.pow_le_pow_right (by decide) (by omega)
      omega
    obtain ⟨e, he⟩ : ∃ e, bitLength n = 53 + (e + 1) := ⟨bitLength n - 54, by omega⟩
    have hexp : bitLength n - 53 = e + 1 := by omega
    have hpe : 0 < 2 ^ (e + 1) := Nat.two_pow_pos _
    have hq1 : 2 ^ 52 ≤ n / 2 ^ (e + 1) := by
      rw [Nat.le_div_iff_mul_le hpe, ← pow_add]
      have : 52 + (e + 1) = bitLength n - 1 := by omega
      rw [this]
      exact b1
    have hq2 : n / 2 ^ (e + 1) < 2 ^ 53 := by
      rw [Nat.div_lt_iff_lt_mul hpe, ← pow_add, ← he]
      exact b2
    unfold roundToDouble at h
    rw [if_neg hlt] at h
    simp only [hexp] at h
    generalize hq : n / 2 ^ (e + 1) = q at h hq1 hq2
    generalize hr : n % 2 ^ (e + 1) = r at h
    by_cases hup : 2 ^ (e + 1 - 1) < r ∨ (r = 2 ^ (e + 1 - 1) ∧ q % 2 = 1)
    · simp only [hup, if_true] at h
      by_cases hq3 : q + 1 < 2 ^ 53
      · have hlem := roundToDouble_mul_pow (q + 1) (e + 1) (by omega) hq3
        split at h
        · exact absurd h (by simp)
        · rename_i hchk
          cases h
          rw [hlem, if_neg hchk]
      · have hq4 : q + 1 = 2 ^ 53 := by omega
        have hm : (q + 1) * 2 ^ (e + 1) = 2 ^ 52 * 2 ^ (e + 1 + 1) := by
          rw [hq4, pow_succ 2 (e + 1)]
          ring
        rw [hm] at h
        have hlem := roundToDouble_mul_pow (2 ^ 52) (e + 1 + 1) (le_refl _)
          (Nat.pow_lt_pow_right (by decide) (by decide))
        split at h
        · exact absurd h (by simp)
        · rename_i hchk
          cases h
          rw [hlem, if_neg hchk]
    · simp only [hup, if_false] at h
      have hlem := roundToDouble_mul_pow q (e + 1) hq1 hq2
      split at h
      · exact absurd h (by simp)
      · rename_i hchk
        cases h
        rw [hlem, if_neg hchk]

theorem roundToDouble_large (n m : Nat) (hn : ¬ n < 2 ^ 53) (h : roundToDouble n = some m) :
    2 ^ 53 ≤ m := by
  have hpos : 0 < n := by
    have : 0 < 2 ^ 53 := Nat.two_pow_pos 53
    omega
  obtain ⟨b1, b2⟩ := bitLength_bounds n hpos
  have hB : 54 ≤ bitLength n := by
    by_contra hB
    have : 2 ^ bitLength n ≤ 2 ^ 53 := Nat.pow_le_pow_right (by decide) (by omega)
    omega
  obtain ⟨e, he⟩ : ∃ e, bitLength n = 53 + (e + 1) := ⟨bitLength n - 54, by omega⟩
  have hexp : bitLength n - 53 = e + 1 := by omega
  have hpe : 0 < 2 ^ (e + 1) := Nat.two_pow_pos _
  have hq1 : 2 ^ 52 ≤ n / 2 ^ (e + 1) := by
    rw [Nat.le_div_iff_mul_le hpe, ← pow_add]
    have : 52 + (e + 1) = bitLength n - 1 := by omega
    rw [this]
    exact b1
  have hbig : ∀ q1 : Nat, n / 2 ^ (e + 1) ≤ q1 → 2 ^ 53 ≤ q1 * 2 ^ (e + 1) := by
    intro q1 hq
    have h2 : 2 ≤ 2 ^ (e + 1) := by
      rw [pow_succ]
      have : 0 < 2 ^ e := Nat.two_pow_pos e
      omega
    calc 2 ^ 53 = 2 ^ 52 * 2 := by norm_num
      _ ≤ q1 * 2 ^ (e + 1) := Nat.mul_le_mul (le_trans hq1 hq) h2
  unfold roundToDouble at h
  rw [if_neg hn] at h
  simp only [hexp] at h
  generalize hq : n / 2 ^ (e + 1) = q at h hbig
  generalize hr : n % 2 ^ (e + 1) = r at h
  by_cases hup : 2 ^ (e + 1 - 1) < r ∨ (r = 2 ^ (e + 1 - 1) ∧ q % 2 = 1)
  · simp only [hup, if_true] at h
    split at h
    · exact absurd h (by simp)
    · cases h
      exact hbig (q + 1) (by omega)
  · simp only [hup, if_false] at h
    split at h
    · exact absurd h (by simp)
    · cases h
      exact hbig q (le_refl _)

/-! ### The digits printed for a double -/

theorem shortestCandidate_sound (m k c : Nat) (h : shortestCandidate m k = some c) :
    roundToDouble c = some m := by
  unfold shortestCandidate at h
  simp only at h
  split at h
  · rename_i hb
    split at h
    · cases h; exact hb.1
    · split at h
      · cases h; exact hb.2
      · split at h
        · cases h; exact hb.1
        · cases h; exact hb.2
  · split at h
    · rename_i hl
      cases h; exact hl
    · split at h
      · rename_i hh
        cases h; exact hh
      · exact absurd h (by simp)

theorem shortestDecimal_cases (m : Nat) :
    shortestDecimal m = m ∨ roundToDouble (shortestDecimal m) = some m := by
  unfold shortestDecimal
  cases hf : ((List.range (decimalLength m)).map (fun k => k + 1)).findSome?
      (shortestCandidate m) with
  | none => exact Or.inl rfl
  | some c =>
    obtain ⟨k, _, hk⟩ := List.exists_of_findSome?_eq_some hf
    exact Or.inr (shortestCandidate_sound m k c hk)

theorem shortestDecimal_sound (m : Nat) (h : roundToDouble m = some m) :
    roundToDouble (shortestDecimal m) = some m := by
  rcases shortestDecimal_cases m with hc | hc
  · rw [hc]
    exact h
  · exact hc

set_option maxRecDepth 100000 in
theorem shortestDecimal_exact (m : Nat) (h : m ≤ 2 ^ 53) : shortestDecimal m = m := by
  rcases Nat.lt_or_ge m (2 ^ 53) with hlt | hge
  · rcases shortestDecimal_cases m with hc | hc
    · exact hc
    · by_cases hs : shortestDecimal m < 2 ^ 53
      · have : roundToDouble (shortestDecimal m) = some (shortestDecimal m) := by
          unfold roundToDouble
          rw [if_pos hs]
        rw [this] at hc
        exact Option.some.inj hc
      · have := roundToDouble_large _ _ hs hc
        omega
  · have hm : m = 2 ^ 53 := by omega
    subst hm
    decide

/-! ## Claims -/

/-- C1. For every record list, every valid record index `i`, every field among `vin`, `reg`
and `engine_no` and every raw string `v`, the value stored in record `i` under that field after
`updateData(i, field, v)` is `v` converted to upper case with every whitespace character
removed. -/
theorem updateData_identifier_stored (upperMap : Char → List Char) (s : State) (i : Int)
    (field v : String) (h0 : 0 ≤ i) (h1 : i < s.extractedData.length)
    (hf : field = "vin" ∨ field = "reg" ∨ field = "engine_no") :
    (elementAt (updateData upperMap s i field v).extractedData i).map
        (fun r => getField r field) =
      some (JsValue.str (removeWhiteSpace (toUpperCase upperMap v))) := by
  obtain ⟨r, hr⟩ := elementAt_of_valid s.extractedData i h0 h1
  have hempty : removeWhiteSpace (toUpperCase upperMap "") = "" := by
    simp [removeWhiteSpace, toUpperCase]
  have hproto : field ≠ "__proto__" := by
    rcases hf with h | h | h <;> simp [h]
  simp only [updateData, hr]
  rw [elementAt_set _ _ _ h0 h1]
  simp only [Option.map_some', getField_assignField_same _ _ _ hproto]
  by_cases hv : truthy v = true
  · rcases hf with h | h | h <;> simp [h, hv]
  · have hv2 : v = "" := (truthy_eq_false_iff v).mp (by simpa using hv)
    subst hv2
    rcases hf with h | h | h <;> simp [h, hv, hempty, truthy]

/-- Instance of C1: the VIN `1a2 b3c` typed into the first sample record is stored as `1A2B3C`. -/
theorem updateData_identifier_stored_witness :
    ((0 : Int) ≤ 0 ∧ (0 : Int) < sampleState.extractedData.length ∧
      ("vin" = "vin" ∨ "vin" = "reg" ∨ "vin" = "engine_no")) ∧
    (elementAt (updateData asciiUpperMap sampleState 0 "vin" "1a2 b3c").extractedData 0).map
        (fun r => getField r "vin") =
      some (JsValue.str (removeWhiteSpace (toUpperCase asciiUpperMap "1a2 b3c"))) ∧
    removeWhiteSpace (toUpperCase asciiUpperMap "1a2 b3c") = "1A2B3C" :=
  ⟨by decide,
   updateData_identifier_stored asciiUpperMap sampleState 0 "vin" "1a2 b3c" (by decide)
     (by decide) (by decide),
   by decide⟩

/-- C2 (as stated, refuted). The sixteen digits `9007199254740993` are stored as
`9,007,199,254,740,992`: `parseInt` returns the nearest double, which is not the integer
written, so the stored text is not the rendering of the integer whose digits were typed. -/
theorem updateData_odometer_rounds :
    (elementAt (updateData asciiUpperMap sampleState 0 "odometer"
        "9007199254740993").extractedData 0).map (fun r => getField r "odometer") =
      some (JsValue.str "9,007,199,254,740,992") ∧
    formatNat (decimalValue "9007199254740993") = "9,007,199,254,740,993" ∧
    (elementAt (updateData asciiUpperMap sampleState 0 "odometer"
        "9007199254740993").extractedData 0).map (fun r => getField r "odometer") ≠
      some (JsValue.str (formatNat (decimalValue "9007199254740993"))) := by
  decide

/-- C2 (amended). For every valid record index `i` and every raw string `v` that contains at
least one decimal digit and whose digits denote an integer of at most `2 ^ 53`, the odometer
stored by `updateData(i, 'odometer', v)` is the thousands-separated decimal rendering of the
integer whose digits are the digits of `v` in order, all other characters ignored. -/
theorem updateData_odometer_stored (upperMap : Char → List Char) (s : State) (i : Int)
    (v : String) (h0 : 0 ≤ i) (h1 : i < s.extractedData.length)
    (hd : ∃ c ∈ v.data, isDecimalDigit c = true) (hn : decimalValue v ≤ 2 ^ 53) :
    (elementAt (updateData upperMap s i "odometer" v).extractedData i).map
        (fun r => getField r "odometer") =
      some (JsValue.str (formatNat (decimalValue v))) := by
  obtain ⟨r, hr⟩ := elementAt_of_valid s.extractedData i h0 h1
  obtain ⟨c, hc, hcd⟩ := hd
  have hv : truthy v = true := by
    rw [truthy_eq_true_iff]
    intro hh
    subst hh
    simp at hc
  have hmem : c ∈ v.data.filter isDecimalDigit := List.mem_filter.mpr ⟨hc, hcd⟩
  have hne : v.data.filter isDecimalDigit ≠ [] := List.ne_nil_of_mem hmem
  have hnum : truthy (removeNonDigits v) = true := by
    simp only [truthy, removeNonDigits, Bool.not_eq_true', List.isEmpty_eq_false]
    exact hne
  have hparse : parseInt (removeNonDigits v) = JsNumber.finite false (decimalValue v) := by
    have := parseInt_digits (v.data.filter isDecimalDigit) hne
      (fun d hd => (List.mem_filter.mp hd).2)
    rw [removeNonDigits, this]
    have hround := roundToDouble_exact (decimalValue v) hn
    unfold decimalValue at hround
    rw [hround]
    rfl
  simp only [updateData, hr]
  rw [elementAt_set _ _ _ h0 h1]
  simp only [Option.map_some', getField_assignField_same _ _ _ (by decide : "odometer" ≠ "__proto__")]
  simp [hv, hnum, hparse, toLocaleString, shortestDecimal_exact _ hn]

/-- Instance of C2: the odometer `12,345 km` typed into the first sample record is stored as
`12,345`. -/
theorem updateData_odometer_stored_witness :
    ((0 : Int) ≤ 0 ∧ (0 : Int) < sampleState.extractedData.length ∧
      (∃ c ∈ "12,345 km".data, isDecimalDigit c = true) ∧ decimalValue "12,345 km" ≤ 2 ^ 53) ∧
    (elementAt (updateData asciiUpperMap sampleState 0 "odometer" "12,345 km").extractedData 0).map
        (fun r => getField r "odometer") =
      some (JsValue.str (formatNat (decimalValue "12,345 km"))) ∧
    formatNat (decimalValue "12,345 km") = "12,345" :=
  ⟨by decide,
   updateData_odometer_stored asciiUpperMap sampleState 0 "12,345 km" (by decide) (by decide)
     (by decide) (by decide),
   by decide⟩

/-- C3 (as stated, refuted). The digit-free value `abc` is stored as `abc`, not as the empty
string. -/
theorem updateData_odometer_keeps_text :
    (elementAt (updateData asciiUpperMap sampleState 0 "odometer" "abc").extractedData 0).map
        (fun r => getField r "odometer") = some (JsValue.str "abc") ∧
    (elementAt (updateData asciiUpperMap sampleState 0 "odometer" "abc").extractedData 0).map
        (fun r => getField r "odometer") ≠ some (JsValue.str "") := by
  decide

/-- C3 (amended). For every valid record index `i` and every raw string `v` that contains no
decimal digit, the odometer stored by `updateData(i, 'odometer', v)` is `v` itself, exactly as
typed: the field is cleared only when `v` is empty. -/
theorem updateData_odometer_no_digit (upperMap : Char → List Char) (s : State) (i : Int)
    (v : String) (h0 : 0 ≤ i) (h1 : i < s.extractedData.length)
    (hd : ∀ c ∈ v.data, isDecimalDigit c = false) :
    (elementAt (updateData upperMap s i "odometer" v).extractedData i).map
        (fun r => getField r "odometer") = some (JsValue.str v) := by
  obtain ⟨r, hr⟩ := elementAt_of_valid s.extractedData i h0 h1
  have hnum : truthy (removeNonDigits v) = false := by
    simp only [truthy, removeNonDigits, Bool.not_eq_false', List.isEmpty_iff]
    exact List.filter_eq_nil_iff.mpr (fun c hc => by simp [hd c hc])
  simp only [updateData, hr]
  rw [elementAt_set _ _ _ h0 h1]
  simp only [Option.map_some', getField_assignField_same _ _ _ (by decide : "odometer" ≠ "__proto__")]
  by_cases hv : truthy v = true
  · simp [hv, hnum]
  · simp [hv]

/-- Instance of C3: the odometer ` km` typed into the second sample record is stored as typed. -/
theorem updateData_odometer_no_digit_witness :
    ((0 : Int) ≤ 1 ∧ (1 : Int) < sampleState.extractedData.length ∧
      ∀ c ∈ " km".data, isDecimalDigit c = false) ∧
    (elementAt (updateData asciiUpperMap sampleState 1 "odometer" " km").extractedData 1).map
        (fun r => getField r "odometer") = some (JsValue.str " km") :=
  ⟨by decide,
   updateData_odometer_no_digit asciiUpperMap sampleState 1 " km" (by decide) (by decide)
     (by decide)⟩

/-- C4 (as stated, refuted). `Bob` is the second entry of the history; after
`updateData(0, 'seller_name', 'Bob')` the history is still `[Ann, Bob]`, so `Bob` has not been
moved to the front. -/
theorem updateData_seller_not_promoted :
    (updateData asciiUpperMap sampleState 0 "seller_name" "Bob").sellerHistory = ["Ann", "Bob"] ∧
    (updateData asciiUpperMap sampleState 0 "seller_name" "Bob").sellerHistory.head? ≠
      some "Bob" := by
  decide

/-- C4 (amended). For every seller history that contains, at any position, the trimmed form of
the typed name, and every record index `i`, after `updateData(i, 'seller_name', v)` the history
is exactly what it was: the name keeps its position, the other entries keep theirs, and the
length is unchanged. -/
theorem updateData_seller_known (upperMap : Char → List Char) (s : State) (i : Int)
    (v : String) (h : trim v ∈ s.sellerHistory) :
    (updateData upperMap s i "seller_name" v).sellerHistory = s.sellerHistory := by
  rw [updateData_sellerHistory]
  simp [h]

/-- Instance of C4: typing ` Bob ` when `Bob` is remembered leaves the history as it is. -/
theorem updateData_seller_known_witness :
    trim " Bob " ∈ sampleState.sellerHistory ∧
    (updateData asciiUpperMap sampleState 0 "seller_name" " Bob ").sellerHistory =
      sampleState.sellerHistory :=
  ⟨by decide, updateData_seller_known asciiUpperMap sampleState 0 " Bob " (by decide)⟩

/-- C5. Starting from an empty seller history, for every sequence `n1..n11` of pairwise
distinct, non-empty names without surrounding whitespace, calling
`updateData(i, 'seller_name', nk)` for `k = 1..11` on a valid record index leaves the history
`[n11, n10, ..., n2]`: 10 entries, most recent first, the oldest name `n1` evicted. -/
theorem updateData_eleven_sellers (upperMap : Char → List Char) (s : State) (i : Int)
    (ns : List String) (h0 : 0 ≤ i) (h1 : i < s.extractedData.length)
    (hempty : s.sellerHistory = []) (hlen : ns.length = 11) (hnd : ns.Nodup)
    (hnames : ∀ n ∈ ns, n ≠ "" ∧ trim n = n) :
    (ns.foldl (fun st n => updateData upperMap st i "seller_name" n) s).sellerHistory =
        (ns.drop 1).reverse ∧
    (ns.foldl (fun st n => updateData upperMap st i "seller_name" n) s).sellerHistory.length =
        10 := by
  have hfold := foldl_updateData_sellerHistory upperMap i ns s h0 h1 (by simp [hempty]) hnd
    (fun n hn => ⟨(hnames n hn).1, (hnames n hn).2, by simp [hempty]⟩)
  have hval : (ns.foldl (fun st n => updateData upperMap st i "seller_name" n) s).sellerHistory =
      (ns.drop 1).reverse := by
    rw [hfold, hempty, List.append_nil, List.take_reverse, hlen]
  refine ⟨hval, ?_⟩
  rw [hval]
  simp [hlen]

/-- Instance of C5: eleven names typed into the second sample record, starting from an empty
history. -/
theorem updateData_eleven_sellers_witness :
    ((0 : Int) ≤ 1 ∧ (1 : Int) < (freshState).extractedData.length ∧
      freshState.sellerHistory = [] ∧ elevenNames.length = 11 ∧ elevenNames.Nodup ∧
      ∀ n ∈ elevenNames, n ≠ "" ∧ trim n = n) ∧
    ((elevenNames.foldl (fun st n => updateData asciiUpperMap st 1 "seller_name" n)
        freshState).sellerHistory = (elevenNames.drop 1).reverse ∧
      (elevenNames.foldl (fun st n => updateData asciiUpperMap st 1 "seller_name" n)
        freshState).sellerHistory.length = 10) :=
  ⟨by decide,
   updateData_eleven_sellers asciiUpperMap freshState 1 elevenNames (by decide) (by decide)
     (by decide) (by decide) (by decide) (by decide)⟩

/-- C6. Every edit preserves the seller-history invariant: if the history has at most 10
entries and no duplicate entries, then after `updateData(index, field, value)`, for arbitrary
arguments and an arbitrary record list, it still has at most 10 entries and no duplicate
entries. -/
theorem updateData_history_invariant (upperMap : Char → List Char) (s : State) (index : Int)
    (field value : String) (hlen : s.sellerHistory.length ≤ 10) (hnd : s.sellerHistory.Nodup) :
    (updateData upperMap s index field value).sellerHistory.length ≤ 10 ∧
    (updateData upperMap s index field value).sellerHistory.Nodup := by
  rw [updateData_sellerHistory]
  split
  · rename_i hc
    refine ⟨by simp [List.length_take], ?_⟩
    exact List.Nodup.sublist (List.take_sublist _ _) (List.nodup_cons.mpr ⟨hc.2.2.2.2, hnd⟩)
  · exact ⟨hlen, hnd⟩

/-- Instance of C6: a new seller typed into the sample session. -/
theorem updateData_history_invariant_witness :
    (sampleState.sellerHistory.length ≤ 10 ∧ sampleState.sellerHistory.Nodup) ∧
    ((updateData asciiUpperMap sampleState 0 "seller_name" "Cy").sellerHistory.length ≤ 10 ∧
      (updateData asciiUpperMap sampleState 0 "seller_name" "Cy").sellerHistory.Nodup) :=
  ⟨by decide,
   updateData_history_invariant asciiUpperMap sampleState 0 "seller_name" "Cy" (by decide)
     (by decide)⟩

/-- C7. For every staged list `S` and every candidate list `C`, after `addFiles(C)` the staged
list is `S` followed by exactly those files of `C` whose type is one of `application/pdf`,
`image/jpeg`, `image/jpg`, `image/png`, `image/tiff`, `image/bmp`, in the order they had in `C`;
candidates `[pdf, exe, png]` on an empty staged list give `[pdf, png]`. -/
theorem addFiles_selectedFiles (s : State) (files : List File) :
    (addFiles s files).selectedFiles =
      s.selectedFiles ++ files.filter (fun f => decide
        (f.type = "application/pdf" ∨ f.type = "image/jpeg" ∨ f.type = "image/jpg" ∨
         f.type = "image/png" ∨ f.type = "image/tiff" ∨ f.type = "image/bmp")) ∧
    (addFiles { s with selectedFiles := [] }
        [{ name := "a.pdf", size := 10, type := "application/pdf" },
         { name := "b.exe", size := 20, type := "application/x-msdownload" },
         { name := "c.png", size := 30, type := "image/png" }]).selectedFiles =
      [{ name := "a.pdf", size := 10, type := "application/pdf" },
       { name := "c.png", size := 30, type := "image/png" }] := by
  constructor
  · simp only [addFiles, updateProcessButton, validTypes]
    congr 1
    apply List.filter_congr
    intro f _
    simp
  · rfl

/-- C8. For every list of per-file results in a successful upload response, the record list
after `processFiles` has one record per result whose status is exactly `success`, in the order
of the response, and replaces the previous list. In `src/app.js` the record is the result's
field data with the result's thumbnail defined on it, which leaves every other field as the
service sent it; in `src/web/app.js` the record is the result's field data itself. -/
theorem processFiles_records (s : State) (results : List UploadResult)
    (hstaged : s.selectedFiles ≠ []) :
    (processFiles s (UploadReply.ok results)).extractedData =
      (results.filter (fun r => decide (r.status = "success"))).map
        (fun r => defineField r.data "thumbnail" r.thumbnail) ∧
    (∀ (r : UploadResult) (field : String), field ≠ "thumbnail" →
      getField (defineField r.data "thumbnail" r.thumbnail) field = getField r.data field) ∧
    (∀ r : UploadResult,
      getField (defineField r.data "thumbnail" r.thumbnail) "thumbnail" = r.thumbnail) ∧
    (Web.processFiles s (UploadReply.ok results)).extractedData =
      (results.filter (fun r => decide (r.status = "success"))).map (fun r => r.data) := by
  have hlen : ¬ s.selectedFiles.length = 0 := by
    intro h
    exact hstaged (List.length_eq_zero.mp h)
  refine ⟨?_, ?_, ?_, ?_⟩
  · simp only [processFiles, hlen, if_false, processFilesEnd, processFilesResults]
    split <;> simp [showMessage]
  · intro r field hfield
    exact getField_defineField_other r.data "thumbnail" field r.thumbnail hfield
  · intro r
    exact getField_defineField_same r.data "thumbnail" r.thumbnail
  · simp only [Web.processFiles, hlen, if_false, Web.processFilesEnd, Web.processFilesResults]
    split <;> simp [showMessage]

/-- Instance of C8: a success, a failure and a success give the two successful records in order. -/
theorem processFiles_records_witness :
    sampleState.selectedFiles ≠ [] ∧
    ((processFiles sampleState (UploadReply.ok sampleResults)).extractedData =
      (sampleResults.filter (fun r => decide (r.status = "success"))).map
        (fun r => defineField r.data "thumbnail" r.thumbnail) ∧
    (∀ (r : UploadResult) (field : String), field ≠ "thumbnail" →
      getField (defineField r.data "thumbnail" r.thumbnail) field = getField r.data field) ∧
    (∀ r : UploadResult,
      getField (defineField r.data "thumbnail" r.thumbnail) "thumbnail" = r.thumbnail) ∧
    (Web.processFiles sampleState (UploadReply.ok sampleResults)).extractedData =
      (sampleResults.filter (fun r => decide (r.status = "success"))).map (fun r => r.data)) ∧
    (Web.processFiles sampleState (UploadReply.ok sampleResults)).extractedData =
      [[("vin", JsValue.str "A"), ("make", JsValue.str "Audi")],
       [("vin", JsValue.str "B"), ("make", JsValue.null)]] :=
  ⟨by decide, processFiles_records sampleState sampleResults (by decide), by decide⟩

/-- C9 (as stated, refuted). On the two staged files of the sample session `removeFile(-1)`
reports no failure and removes the last file: the index `-1` is no position of the list, yet
the call completes normally and the staged list is one file shorter. -/
theorem removeFile_negative_index :
    removeFileCall sampleState (-1) = Except.ok (removeFile sampleState (-1)) ∧
    (removeFile sampleState (-1)).selectedFiles =
      [{ name := "scan1.pdf", size := 1024, type := "application/pdf" }] ∧
    (removeFile sampleState (-1)).selectedFiles ≠ sampleState.selectedFiles := by
  refine ⟨rfl, ?_, ?_⟩ <;> decide

/-- C9 (amended). For every staged list and every index at or beyond its length,
`removeFile(index)` completes normally, without an index-out-of-range outcome, and leaves the
staged list unchanged; the only effect is the refresh of the process button. -/
theorem removeFile_beyond_length (s : State) (index : Int)
    (h : (s.selectedFiles.length : Int) ≤ index) :
    removeFileCall s index = Except.ok (updateProcessButton s) ∧
    (removeFile s index).selectedFiles = s.selectedFiles := by
  have hneg : ¬ index < 0 := by omega
  have hsplice : splice s.selectedFiles index = s.selectedFiles := by
    simp only [splice, hneg, if_false]
    apply List.eraseIdx_of_length_le
    omega
  constructor
  · simp only [removeFileCall, removeFile, hsplice]
  · simp only [removeFile, updateProcessButton, hsplice]

/-- Instance of C9: index 2 on the two staged files of the sample session. -/
theorem removeFile_beyond_length_witness :
    ((sampleState.selectedFiles.length : Int) ≤ 2) ∧
    (removeFileCall sampleState 2 = Except.ok (updateProcessButton sampleState) ∧
      (removeFile sampleState 2).selectedFiles = sampleState.selectedFiles) :=
  ⟨by decide, removeFile_beyond_length sampleState 2 (by decide)⟩

/-- C10 (as stated, refuted). With two records, `updateData(7, 'vin', 'x')` reports no failure:
the call completes normally, with the state it started from. -/
theorem updateData_missing_row_completes :
    updateDataCall asciiUpperMap sampleState 7 "vin" "x" = Except.ok sampleState ∧
    ¬ ∃ e, updateDataCall asciiUpperMap sampleState 7 "vin" "x" = Except.error e := by
  constructor
  · rfl
  · rintro ⟨e, he⟩
    simp [updateDataCall] at he

/-- C10 (amended). For every record list and every `rowIndex` that is out of range for it,
`updateData(rowIndex, field, value)` completes normally, without a record-not-found outcome,
and leaves the whole state unchanged, the record list and the seller history included. -/
theorem updateData_missing_row (upperMap : Char → List Char) (s : State) (rowIndex : Int)
    (field value : String)
    (h : rowIndex < 0 ∨ (s.extractedData.length : Int) ≤ rowIndex) :
    updateDataCall upperMap s rowIndex field value = Except.ok s ∧
    (updateData upperMap s rowIndex field value).extractedData = s.extractedData ∧
    (updateData upperMap s rowIndex field value).sellerHistory = s.sellerHistory := by
  have hnone := elementAt_of_invalid s.extractedData rowIndex h
  have hsame : updateData upperMap s rowIndex field value = s := by
    simp only [updateData, hnone]
  simp only [updateDataCall, hsame, and_self]

/-- Instance of C10: row `-1` of the sample session. -/
theorem updateData_missing_row_witness :
    ((-1 : Int) < 0 ∨ (sampleState.extractedData.length : Int) ≤ -1) ∧
    (updateDataCall asciiUpperMap sampleState (-1) "seller_name" "Zed" = Except.ok sampleState ∧
      (updateData asciiUpperMap sampleState (-1) "seller_name" "Zed").extractedData =
        sampleState.extractedData ∧
      (updateData asciiUpperMap sampleState (-1) "seller_name" "Zed").sellerHistory =
        sampleState.sellerHistory) :=
  ⟨by decide, updateData_missing_row asciiUpperMap sampleState (-1) "seller_name" "Zed" (by decide)⟩

/-! ## Auxiliary facts on records and rows -/

theorem getField_of_hasField_false (r : Record) (field : String) (h : hasField r field = false) :
    getField r field = JsValue.undefined := by
  induction r with
  | nil => rfl
  | cons p r ih =>
    obtain ⟨k, w⟩ := p
    by_cases hk : k = field
    · simp [hasField, hk] at h
    · simp only [hasField, hk, if_false] at h
      simp [getField, hk, ih h]

theorem hasField_defineField_same (r : Record) (field : String) (v : JsValue) :
    hasField (defineField r field v) field = true := by
  induction r with
  | nil => simp [defineField, hasField]
  | cons p r ih =>
    obtain ⟨k, w⟩ := p
    by_cases hk : k = field
    · simp [defineField, hasField, hk]
    · simp [defineField, hasField, hk, ih]

theorem hasField_defineField_other (r : Record) (field other : String) (v : JsValue)
    (h : other ≠ field) : hasField (defineField r field v) other = hasField r other := by
  induction r with
  | nil => simp [defineField, hasField, h.symm]
  | cons p r ih =>
    obtain ⟨k, w⟩ := p
    by_cases hk : k = field
    · subst hk
      simp [defineField, hasField, h.symm]
    · by_cases hko : k = other
      · subst hko
        simp [defineField, hasField, hk]
      · simp [defineField, hasField, hk, hko, ih]

theorem defineField_of_absent (r : Record) (field : String) (v : JsValue)
    (h : hasField r field = false) : defineField r field v = r ++ [(field, v)] := by
  induction r with
  | nil => rfl
  | cons p r ih =>
    obtain ⟨k, w⟩ := p
    by_cases hk : k = field
    · simp [hasField, hk] at h
    · simp only [hasField, hk, if_false] at h
      simp only [defineField, hk, if_false, ih h, List.cons_append]

theorem map_fst_defineField_of_present (r : Record) (field : String) (v : JsValue)
    (h : hasField r field = true) :
    (defineField r field v).map Prod.fst = r.map Prod.fst := by
  induction r with
  | nil => simp [hasField] at h
  | cons p r ih =>
    obtain ⟨k, w⟩ := p
    by_cases hk : k = field
    · simp [defineField, hk]
    · simp only [hasField, hk, if_false] at h
      simp only [defineField, hk, if_false, List.map_cons, ih h]

theorem hasField_iff_mem (r : Record) (field : String) :
    hasField r field = true ↔ field ∈ r.map Prod.fst := by
  induction r with
  | nil => simp [hasField]
  | cons p r ih =>
    obtain ⟨k, w⟩ := p
    by_cases hk : k = field
    · simp [hasField, hk]
    · have hk2 : ¬ field = k := fun h => hk h.symm
      simp [hasField, hk, hk2, ih]

theorem insertionSort_append_single (α : Type) (l : List (Nat × α)) (x : Nat × α) :
    (l.insertionSort (fun a b => a.1 ≤ b.1)).Sublist
      ((l ++ [x]).insertionSort (fun a b => a.1 ≤ b.1)) := by
  induction l with
  | nil => exact List.nil_sublist _
  | cons a l ih =>
    simp only [List.cons_append, List.insertionSort]
    exact List.Sublist.orderedInsert_sublist a ih (List.sorted_insertionSort _ _)

/-- The enumeration order of the names depends on the names only. -/
theorem fieldNames_eq (r : Record) :
    fieldNames r =
      (((r.map Prod.fst).filterMap (fun k => (arrayIndex? k).map (fun n => (n, k)))).insertionSort
          (fun a b => a.1 ≤ b.1)).map Prod.snd ++
        (r.map Prod.fst).filter (fun k => (arrayIndex? k).isNone) := by
  unfold fieldNames orderedEntries
  rw [List.map_append]
  congr 1
  · have hfm : (r.filterMap (fun p => (arrayIndex? p.1).map (fun n => (n, p)))).map
        (fun a : Nat × (String × JsValue) => (a.1, a.2.1)) =
        (r.map Prod.fst).filterMap (fun k => (arrayIndex? k).map (fun n => (n, k))) := by
      induction r with
      | nil => rfl
      | cons p r ih =>
        simp only [List.map_cons, List.filterMap_cons]
        cases hidx : arrayIndex? p.1 with
        | none => simp only [Option.map_none', ih]
        | some n => simp only [Option.map_some', List.map_cons, ih]
    have hmap := List.map_insertionSort (fun a b : Nat × (String × JsValue) => a.1 ≤ b.1)
      (fun a b : Nat × String => a.1 ≤ b.1)
      (fun a : Nat × (String × JsValue) => (a.1, a.2.1))
      (r.filterMap (fun p => (arrayIndex? p.1).map (fun n => (n, p))))
      (fun a _ b _ => Iff.rfl)
    rw [← hfm, ← hmap, List.map_map, List.map_map]
    rfl
  · induction r with
    | nil => rfl
    | cons p r ih =>
      cases hidx : arrayIndex? p.1 with
      | none => simp [List.filter_cons, hidx, ih]
      | some n => simp [List.filter_cons, hidx, ih]

theorem fieldNames_congr (r r' : Record) (h : r.map Prod.fst = r'.map Prod.fst) :
    fieldNames r = fieldNames r' := by
  rw [fieldNames_eq, fieldNames_eq, h]

theorem mem_fieldNames (r : Record) (g : String) :
    g ∈ fieldNames r ↔ g ∈ r.map Prod.fst := by
  rw [fieldNames_eq, List.mem_append, List.mem_map, List.mem_filter]
  constructor
  · rintro (⟨a, ha, rfl⟩ | ⟨h, _⟩)
    · rw [(List.perm_insertionSort _ _).mem_iff, List.mem_filterMap] at ha
      obtain ⟨k, hk, hka⟩ := ha
      cases hidx : arrayIndex? k with
      | none => simp [hidx] at hka
      | some n =>
        simp only [hidx, Option.map_some', Option.some.injEq] at hka
        rw [← hka]
        exact hk
    · exact h
  · intro h
    cases hidx : arrayIndex? g with
    | none => exact Or.inr ⟨h, by simp [hidx]⟩
    | some n =>
      refine Or.inl ⟨(n, g), ?_, rfl⟩
      rw [(List.perm_insertionSort _ _).mem_iff, List.mem_filterMap]
      exact ⟨g, h, by simp [hidx]⟩

/-- A name added to a record is enumerated last unless it is an array index; in every case the
names the record had keep their order. -/
theorem fieldNames_append (r : Record) (p : String × JsValue) :
    (fieldNames r).Sublist (fieldNames (r ++ [p])) ∧
    (fieldNames (r ++ [p])).length = (fieldNames r).length + 1 ∧
    (arrayIndex? p.1 = none → fieldNames (r ++ [p]) = fieldNames r ++ [p.1]) := by
  rw [fieldNames_eq, fieldNames_eq]
  simp only [List.map_append, List.map_cons, List.map_nil, List.filterMap_append,
    List.filter_append]
  cases hidx : arrayIndex? p.1 with
  | none =>
    simp [List.filterMap_cons, List.filter_cons, hidx]
    omega
  | some n =>
    have hsub := insertionSort_append_single String
      ((r.map Prod.fst).filterMap (fun k => (arrayIndex? k).map (fun n => (n, k)))) (n, p.1)
    simp only [List.filterMap_cons, List.filterMap_nil, List.filter_cons, List.filter_nil, hidx,
      Option.map_some', Option.isNone_some, Bool.false_eq_true, if_false, List.append_nil,
      List.length_append, List.length_map, List.length_insertionSort, List.length_singleton]
    refine ⟨(hsub.map Prod.snd).append (List.Sublist.refl _), by omega, ?_⟩
    intro h
    exact Option.noConfusion h

theorem defineField_defineField (r : Record) (field : String) (v : JsValue) :
    defineField (defineField r field v) field v = defineField r field v := by
  induction r with
  | nil => simp [defineField]
  | cons p r ih =>
    obtain ⟨k, w⟩ := p
    by_cases hk : k = field
    · simp [defineField, hk]
    · simp [defineField, hk, ih]

theorem getField_assignField_other (r : Record) (field other value : String)
    (h : other ≠ field) : getField (assignField r field value) other = getField r other := by
  unfold assignField
  split
  · rfl
  · exact getField_defineField_other r field other _ h

theorem hasField_assignField_other (r : Record) (field other value : String)
    (h : other ≠ field) : hasField (assignField r field value) other = hasField r other := by
  unfold assignField
  split
  · rfl
  · exact hasField_defineField_other r field other _ h

/-- The field names of a record after the assignment `record[field] = value`. -/
theorem fieldNames_assignField (r : Record) (field value : String) :
    (¬ (hasField r field = false ∧ field ≠ "__proto__") →
      fieldNames (assignField r field value) = fieldNames r) ∧
    (hasField r field = false ∧ field ≠ "__proto__" →
      (∀ g, g ∈ fieldNames (assignField r field value) ↔ g ∈ fieldNames r ∨ g = field) ∧
      (fieldNames r).Sublist (fieldNames (assignField r field value)) ∧
      (fieldNames (assignField r field value)).length = (fieldNames r).length + 1 ∧
      (arrayIndex? field = none →
        fieldNames (assignField r field value) = fieldNames r ++ [field])) := by
  constructor
  · intro h
    unfold assignField
    split
    · rfl
    · rename_i hc
      have hp : hasField r field = true := by
        by_contra hh
        have hh' : hasField r field = false := by simpa using hh
        by_cases hproto : field = "__proto__"
        · exact hc ⟨hproto, hh'⟩
        · exact h ⟨hh', hproto⟩
      exact fieldNames_congr _ _ (map_fst_defineField_of_present r field _ hp)
  · rintro ⟨habs, hproto⟩
    have hr : assignField r field value = r ++ [(field, JsValue.str value)] := by
      unfold assignField
      rw [if_neg (fun hc => hproto hc.1)]
      exact defineField_of_absent r field _ habs
    rw [hr]
    obtain ⟨h1, h2, h3⟩ := fieldNames_append r (field, JsValue.str value)
    refine ⟨?_, h1, h2, h3⟩
    intro g
    rw [mem_fieldNames, mem_fieldNames]
    simp [List.mem_append]

theorem assignField_assignField (r : Record) (field value : String) :
    assignField (assignField r field value) field value = assignField r field value := by
  by_cases hc : field = "__proto__" ∧ hasField r field = false
  · have h1 : assignField r field value = r := by
      unfold assignField
      rw [if_pos hc]
    rw [h1, h1]
  · have h1 : assignField r field value = defineField r field (JsValue.str value) := by
      simp only [assignField, hc, if_false]
    rw [h1]
    have h2 : hasField (defineField r field (JsValue.str value)) field = true :=
      hasField_defineField_same _ _ _
    simp only [assignField, h2, Bool.true_eq_false, and_false, if_false]
    exact defineField_defineField _ _ _

theorem elementAt_set_ne {α : Type} (xs : List α) (i j : Int) (x : α) (h0 : 0 ≤ i)
    (hne : j ≠ i) : elementAt (xs.set i.toNat x) j = elementAt xs j := by
  unfold elementAt
  split
  · rfl
  · have : i.toNat ≠ j.toNat := by omega
    simp [List.getElem?_set_ne this]

/-- The record list after an edit of an existing row: the row is replaced by the row with the
stored value assigned to the field. -/
theorem updateData_extractedData (upperMap : Char → List Char) (s : State) (i : Int)
    (field v : String) (r : Record) (hr : elementAt s.extractedData i = some r) :
    (updateData upperMap s i field v).extractedData =
      s.extractedData.set i.toNat (assignField r field (storedValue upperMap field v)) := by
  simp only [updateData, hr, storedValue]
  congr 2
  split_ifs <;> rfl

/-! ## Claims on the edited cell -/

/-- C11 (as stated, refuted). The make ` Audi ` typed into the first sample record is stored
with its surrounding blanks, not as its trimmed form `Audi`. -/
theorem updateData_other_field_not_trimmed :
    (elementAt (updateData asciiUpperMap sampleState 0 "make" " Audi ").extractedData 0).map
        (fun r => getField r "make") = some (JsValue.str " Audi ") ∧
    trim " Audi " = "Audi" ∧
    (elementAt (updateData asciiUpperMap sampleState 0 "make" " Audi ").extractedData 0).map
        (fun r => getField r "make") ≠ some (JsValue.str (trim " Audi ")) := by
  decide

/-- C11 (amended). For every valid record index `i`, every field `f` other than `vin`, `reg`,
`engine_no`, `odometer` and `seller_name` (and other than the reserved name `__proto__`) and
every raw string `v`, the value stored by `updateData(i, f, v)` is `v` itself, exactly as typed:
surrounding whitespace is kept. -/
theorem updateData_other_field_stored (upperMap : Char → List Char) (s : State) (i : Int)
    (f v : String) (h0 : 0 ≤ i) (h1 : i < s.extractedData.length)
    (hf : f ≠ "vin" ∧ f ≠ "reg" ∧ f ≠ "engine_no" ∧ f ≠ "odometer" ∧ f ≠ "seller_name")
    (hproto : f ≠ "__proto__") :
    (elementAt (updateData upperMap s i f v).extractedData i).map (fun r => getField r f) =
      some (JsValue.str v) := by
  obtain ⟨r, hr⟩ := elementAt_of_valid s.extractedData i h0 h1
  rw [updateData_extractedData upperMap s i f v r hr, elementAt_set _ _ _ h0 h1]
  simp only [Option.map_some', getField_assignField_same _ _ _ hproto]
  simp [storedValue, hf.1, hf.2.1, hf.2.2.1, hf.2.2.2.1, hf.2.2.2.2]

/-- Instance of C11: the colour ` red ` typed into the second sample record. -/
theorem updateData_other_field_stored_witness :
    ((0 : Int) ≤ 1 ∧ (1 : Int) < sampleState.extractedData.length ∧
      ("color" ≠ "vin" ∧ "color" ≠ "reg" ∧ "color" ≠ "engine_no" ∧ "color" ≠ "odometer" ∧
        "color" ≠ "seller_name") ∧ "color" ≠ "__proto__") ∧
    (elementAt (updateData asciiUpperMap sampleState 1 "color" " red ").extractedData 1).map
        (fun r => getField r "color") = some (JsValue.str " red ") :=
  ⟨by decide,
   updateData_other_field_stored asciiUpperMap sampleState 1 "color" " red " (by decide)
     (by decide) (by decide) (by decide)⟩

/-- C12. `updateData` writes only the addressed cell: for every record list, valid index `i`,
field `f` and value `v`, after `updateData(i, f, v)` the list has the same length, every record
at an index other than `i` is unchanged (so the order is kept), every field of record `i` other
than `f` is unchanged (its value and its presence), and the seller history, in memory and in
storage, is unchanged whenever `f` is not `seller_name`. -/
theorem updateData_frame (upperMap : Char → List Char) (s : State) (i : Int) (f v : String)
    (h0 : 0 ≤ i) (h1 : i < s.extractedData.length) :
    (updateData upperMap s i f v).extractedData.length = s.extractedData.length ∧
    (∀ j : Int, j ≠ i →
      elementAt (updateData upperMap s i f v).extractedData j = elementAt s.extractedData j) ∧
    (∀ g : String, g ≠ f →
      (elementAt (updateData upperMap s i f v).extractedData i).map
          (fun r => (getField r g, hasField r g)) =
        (elementAt s.extractedData i).map (fun r => (getField r g, hasField r g))) ∧
    (f ≠ "seller_name" →
      (updateData upperMap s i f v).sellerHistory = s.sellerHistory ∧
      (updateData upperMap s i f v).storedSellerHistory = s.storedSellerHistory) := by
  obtain ⟨r, hr⟩ := elementAt_of_valid s.extractedData i h0 h1
  have hdata := updateData_extractedData upperMap s i f v r hr
  refine ⟨updateData_length upperMap s i f v, ?_, ?_, ?_⟩
  · intro j hj
    rw [hdata]
    exact elementAt_set_ne _ _ _ _ h0 hj
  · intro g hg
    rw [hdata, elementAt_set _ _ _ h0 h1, hr]
    simp [getField_assignField_other _ _ _ _ hg, hasField_assignField_other _ _ _ _ hg]
  · intro hs
    simp only [updateData, hr, hs, false_and, if_false]
    constructor <;> (split_ifs <;> rfl)

/-- Instance of C12: an odometer edit of the first sample record. -/
theorem updateData_frame_witness :
    ((0 : Int) ≤ 0 ∧ (0 : Int) < sampleState.extractedData.length) ∧
    ((updateData asciiUpperMap sampleState 0 "odometer" "42 km").extractedData.length =
        sampleState.extractedData.length ∧
    (∀ j : Int, j ≠ 0 →
      elementAt (updateData asciiUpperMap sampleState 0 "odometer" "42 km").extractedData j =
        elementAt sampleState.extractedData j) ∧
    (∀ g : String, g ≠ "odometer" →
      (elementAt (updateData asciiUpperMap sampleState 0 "odometer" "42 km").extractedData 0).map
          (fun r => (getField r g, hasField r g)) =
        (elementAt sampleState.extractedData 0).map (fun r => (getField r g, hasField r g))) ∧
    ("odometer" ≠ "seller_name" →
      (updateData asciiUpperMap sampleState 0 "odometer" "42 km").sellerHistory =
        sampleState.sellerHistory ∧
      (updateData asciiUpperMap sampleState 0 "odometer" "42 km").storedSellerHistory =
        sampleState.storedSellerHistory)) :=
  ⟨by decide, updateData_frame asciiUpperMap sampleState 0 "odometer" "42 km" (by decide)
    (by decide)⟩

/-- C13 (as stated, refuted). The second sample record has no `odometer` field; after
`updateData(1, 'odometer', '5')` it has one, so its set of field names has grown. -/
theorem updateData_adds_field :
    (elementAt sampleState.extractedData 1).map fieldNames =
      some ["seller_name", "vin", "thumbnail"] ∧
    (elementAt (updateData asciiUpperMap sampleState 1 "odometer" "5").extractedData 1).map
        fieldNames = some ["seller_name", "vin", "thumbnail", "odometer"] ∧
    (elementAt (updateData asciiUpperMap sampleState 1 "odometer" "5").extractedData 1).map
        fieldNames ≠ (elementAt sampleState.extractedData 1).map fieldNames := by
  decide

/-- The same edit with a field name that is an array index: `updateData(1, '5', 'x')` on the
second sample record, whose names are `seller_name`, `vin`, `thumbnail`, gives the names `5`,
`seller_name`, `vin`, `thumbnail`, the new name first. -/
theorem updateData_adds_index_field :
    (elementAt (updateData asciiUpperMap sampleState 1 "5" "x").extractedData 1).map
        fieldNames = some ["5", "seller_name", "vin", "thumbnail"] := by
  decide

/-- C13 (amended). An edit never removes or renames a field and adds at most one: for every
record list, indices `i` and `j`, field name `f` and value `v`, a record `r` at index `j` is
after `updateData(i, f, v)` a record `r'` with exactly the field names of `r`, in the same
order, unless `j = i`, `f` is not a field of `r` and `f` is not `__proto__`; in that case the
names of `r'` are the names of `r` and `f`, one more than before, with the names of `r` in the
order they had, and `f` is the last one unless it is written as an array index. -/
theorem updateData_fieldNames (upperMap : Char → List Char) (s : State) (i : Int)
    (f v : String) (j : Int) :
    (elementAt s.extractedData j = none →
      elementAt (updateData upperMap s i f v).extractedData j = none) ∧
    (∀ r, elementAt s.extractedData j = some r →
      ∃ r', elementAt (updateData upperMap s i f v).extractedData j = some r' ∧
        (¬ (j = i ∧ hasField r f = false ∧ f ≠ "__proto__") → fieldNames r' = fieldNames r) ∧
        (j = i ∧ hasField r f = false ∧ f ≠ "__proto__" →
          (∀ g, g ∈ fieldNames r' ↔ g ∈ fieldNames r ∨ g = f) ∧
          (fieldNames r).Sublist (fieldNames r') ∧
          (fieldNames r').length = (fieldNames r).length + 1 ∧
          (arrayIndex? f = none → fieldNames r' = fieldNames r ++ [f]))) := by
  cases hr : elementAt s.extractedData i with
  | none =>
    have hsame : updateData upperMap s i f v = s := by
      simp only [updateData, hr]
    rw [hsame]
    refine ⟨fun h => h, fun r hj => ⟨r, hj, fun _ => rfl, ?_⟩⟩
    rintro ⟨hji, _, _⟩
    subst hji
    rw [hr] at hj
    exact Option.noConfusion hj
  | some ri =>
    have h0 : 0 ≤ i := by
      by_contra hneg
      simp [elementAt, lt_of_not_ge hneg] at hr
    have h1 : i < s.extractedData.length := by
      by_contra hge
      rw [elementAt_of_invalid s.extractedData i (Or.inr (by omega))] at hr
      exact Option.noConfusion hr
    rw [updateData_extractedData upperMap s i f v ri hr]
    by_cases hj : j = i
    · subst hj
      rw [elementAt_set _ _ _ h0 h1]
      refine ⟨fun h => ?_, fun r hjr => ?_⟩
      · rw [hr] at h
        exact Option.noConfusion h
      · rw [hr] at hjr
        cases hjr
        obtain ⟨ha, hb⟩ := fieldNames_assignField ri f (storedValue upperMap f v)
        exact ⟨_, rfl, fun hn => ha (fun hc => hn ⟨rfl, hc⟩), fun hc => hb hc.2⟩
    · rw [elementAt_set_ne _ _ _ _ h0 hj]
      exact ⟨fun h => h, fun r hjr => ⟨r, hjr, fun _ => rfl, fun hc => absurd hc.1 hj⟩⟩

/-- Instance of C13: the second sample record has no `odometer` field, and
`updateData(1, 'odometer', '5')` adds that name after the names it had. -/
theorem updateData_fieldNames_witness :
    (elementAt sampleState.extractedData 1 =
        some [("seller_name", JsValue.null), ("vin", JsValue.str ""),
          ("thumbnail", JsValue.str "data:image/png;base64,AAAA")] ∧
      hasField [("seller_name", JsValue.null), ("vin", JsValue.str ""),
          ("thumbnail", JsValue.str "data:image/png;base64,AAAA")] "odometer" = false ∧
      "odometer" ≠ "__proto__" ∧ arrayIndex? "odometer" = none) ∧
    ∃ r', elementAt (updateData asciiUpperMap sampleState 1 "odometer" "5").extractedData 1 =
        some r' ∧
      fieldNames r' = fieldNames [("seller_name", JsValue.null), ("vin", JsValue.str ""),
          ("thumbnail", JsValue.str "data:image/png;base64,AAAA")] ++ ["odometer"] :=
  ⟨by decide,
   ((updateData_fieldNames asciiUpperMap sampleState 1 "odometer" "5" 1).2 _ (by decide)).imp
     (fun _ h => ⟨h.1, (h.2.2 ⟨rfl, by decide, by decide⟩).2.2.2 (by decide)⟩)⟩

/-! ## Claims on export and upload -/

theorem mem_orderedEntries (r : Record) (p : String × JsValue) (h : p ∈ r) :
    p ∈ orderedEntries r := by
  unfold orderedEntries
  rw [List.mem_append]
  cases hidx : arrayIndex? p.1 with
  | none =>
    right
    exact List.mem_filter.mpr ⟨h, by simp [hidx]⟩
  | some n =>
    left
    rw [List.mem_map]
    refine ⟨(n, p), ?_, rfl⟩
    rw [(List.perm_insertionSort _ _).mem_iff, List.mem_filterMap]
    exact ⟨p, h, by simp [hidx]⟩

theorem selectedFiles_length_ne_zero (s : State) (h : s.selectedFiles ≠ []) :
    ¬ s.selectedFiles.length = 0 := by
  intro hz
  exact h (List.length_eq_zero.mp hz)

/-- C15. For every session state with a staged file and every upload attempt that ends in a
rejected request (the timeout abort or a transport failure), a non-2xx response or an
unreadable body, `processFiles` leaves the record list as it was before the attempt, shows
exactly one message, of type error, and re-enables the process button; the same holds in
`src/web/app.js`, and for the completion of a request on whatever state the session is in when
the reply arrives. -/
theorem processFiles_failure (s : State) (reply : UploadReply) (hstaged : s.selectedFiles ≠ [])
    (hfail : ∀ results, reply ≠ UploadReply.ok results) :
    ((processFiles s reply).extractedData = s.extractedData ∧
      (∃ text, (processFiles s reply).messages = s.messages ++ [{ text := text, type := "error" }]) ∧
      (processFiles s reply).messageDisplayed = true ∧
      (processFiles s reply).processBtnDisabled = false) ∧
    ((Web.processFiles s reply).extractedData = s.extractedData ∧
      (∃ text,
        (Web.processFiles s reply).messages = s.messages ++ [{ text := text, type := "error" }]) ∧
      (Web.processFiles s reply).messageDisplayed = true ∧
      (Web.processFiles s reply).processBtnDisabled = false) ∧
    (∀ t : State, (processFilesEnd t reply).extractedData = t.extractedData ∧
      (∃ text, (processFilesEnd t reply).messages = t.messages ++ [{ text := text, type := "error" }]) ∧
      (processFilesEnd t reply).processBtnDisabled = false) := by
  have hlen := selectedFiles_length_ne_zero s hstaged
  have hp : processFiles s reply = processFilesEnd (processFilesBegin s) reply := by
    simp only [processFiles, hlen, if_false]
  have hw : Web.processFiles s reply = Web.processFilesEnd (processFilesBegin s) reply := by
    simp only [Web.processFiles, hlen, if_false]
  rw [hp, hw]
  cases reply with
  | ok results => exact absurd rfl (hfail results)
  | rejected e =>
    exact ⟨⟨rfl, ⟨_, rfl⟩, rfl, rfl⟩, ⟨rfl, ⟨_, rfl⟩, rfl, rfl⟩, fun t => ⟨rfl, ⟨_, rfl⟩, rfl⟩⟩
  | malformed e =>
    exact ⟨⟨rfl, ⟨_, rfl⟩, rfl, rfl⟩, ⟨rfl, ⟨_, rfl⟩, rfl, rfl⟩, fun t => ⟨rfl, ⟨_, rfl⟩, rfl⟩⟩
  | notOk status body =>
    cases body <;>
      exact ⟨⟨rfl, ⟨_, rfl⟩, rfl, rfl⟩, ⟨rfl, ⟨_, rfl⟩, rfl, rfl⟩, fun t => ⟨rfl, ⟨_, rfl⟩, rfl⟩⟩

/-- Instance of C15: the timer aborts the upload of the sample session. -/
theorem processFiles_failure_witness :
    (sampleState.selectedFiles ≠ [] ∧
      ∀ results, UploadReply.rejected { name := "AbortError", message := "aborted" } ≠
        UploadReply.ok results) ∧
    (processFiles sampleState
        (UploadReply.rejected { name := "AbortError", message := "aborted" })).extractedData =
      sampleState.extractedData ∧
    (processFiles sampleState
        (UploadReply.rejected { name := "AbortError", message := "aborted" })).messages =
      [{ text := timeoutText, type := "error" }] :=
  ⟨⟨by decide, fun _ h => UploadReply.noConfusion h⟩,
   (processFiles_failure sampleState
      (UploadReply.rejected { name := "AbortError", message := "aborted" }) (by decide)
      (fun _ h => UploadReply.noConfusion h)).1.1,
   by decide⟩

theorem error_text_ne_timeoutText (m : String) :
    "Error processing files: " ++ m ≠ timeoutText := by
  intro h
  have hd := congrArg (fun t : String => t.data.head?) h
  simp only [String.data_append] at hd
  have ht : timeoutText.data.head? = some 'R' := by decide
  rw [ht] at hd
  simp at hd

/-- C16 (as stated, refuted). A response with status 500 and no error payload is reported as
`Error processing files: Upload failed`: the message does not include the status code. -/
theorem processFiles_notOk_without_status :
    (processFiles sampleState (UploadReply.notOk 500 ErrorData.unreadable)).messages =
      [{ text := "Error processing files: Upload failed", type := "error" }] ∧
    includes "Error processing files: Upload failed" "500" = false := by
  decide

/-- C16 (amended). For every non-2xx upload response the failure reported by `processFiles` is
never the timeout one. In `src/app.js`, when the body is JSON with a truthy `error` member whose
text does not contain `Failed to fetch`, the message is `Error processing files: ` followed by
that text; when the body is not JSON, or is JSON other than `null` without a truthy `error`
member, the message is the generic `Error processing files: Upload failed`, without the HTTP
status code. In `src/web/app.js` the message is the generic one whatever the body. -/
theorem processFiles_notOk_message (s : State) (status : Nat) (body : ErrorData)
    (hstaged : s.selectedFiles ≠ []) :
    (processFiles s (UploadReply.notOk status body)).messages ≠
      s.messages ++ [{ text := timeoutText, type := "error" }] ∧
    (∀ e, body = ErrorData.error e → includes e "Failed to fetch" = false →
      (processFiles s (UploadReply.notOk status body)).messages =
        s.messages ++ [{ text := "Error processing files: " ++ e, type := "error" }]) ∧
    (body = ErrorData.unreadable ∨ body = ErrorData.noError →
      (processFiles s (UploadReply.notOk status body)).messages =
        s.messages ++ [{ text := "Error processing files: Upload failed", type := "error" }]) ∧
    (Web.processFiles s (UploadReply.notOk status body)).messages =
      s.messages ++ [{ text := "Error processing files: Upload failed", type := "error" }] := by
  have hlen := selectedFiles_length_ne_zero s hstaged
  have hname : ¬ ("Error" = "AbortError") := by decide
  have hname2 : ¬ ("TypeError" = "AbortError") := by decide
  have hinc : includes "Upload failed" "Failed to fetch" = false := by decide
  refine ⟨?_, ?_, ?_, ?_⟩
  · intro h
    have key : ∀ (e : JsError), e.name ≠ "AbortError" →
        (processFilesCatch (processFilesBegin s) e).messages ≠
          s.messages ++ [{ text := timeoutText, type := "error" }] := by
      intro e hne h
      simp only [processFilesCatch, showMessage, processFilesBegin, hne, if_false] at h
      have h2 := List.append_cancel_left h
      simp only [List.cons.injEq, Message.mk.injEq, and_true] at h2
      split at h2
      · revert h2
        decide
      · exact error_text_ne_timeoutText _ h2
    simp only [processFiles, hlen, if_false, processFilesEnd] at h
    cases body with
    | unreadable => exact key _ hname h
    | threw m => exact key _ hname2 h
    | noError => exact key _ hname h
    | error t => exact key _ hname h
  · intro e he hince
    subst he
    simp only [processFiles, hlen, if_false, processFilesEnd, processFilesCatch, showMessage,
      processFilesBegin, hname, hince, Bool.false_eq_true]
  · intro he
    rcases he with he | he <;> subst he <;>
      simp only [processFiles, hlen, if_false, processFilesEnd, processFilesCatch, showMessage,
        processFilesBegin, hname, hinc, Bool.false_eq_true] <;> rfl
  · simp only [Web.processFiles, hlen, if_false, Web.processFilesEnd, Web.processFilesCatch,
      showMessage, processFilesBegin]
    rfl

/-- Instance of C16: a 422 response whose body is `{"error": "Unsupported file"}`. -/
theorem processFiles_notOk_message_witness :
    sampleState.selectedFiles ≠ [] ∧
    (processFiles sampleState
        (UploadReply.notOk 422 (ErrorData.error "Unsupported file"))).messages =
      sampleState.messages ++
        [{ text := "Error processing files: " ++ "Unsupported file", type := "error" }] :=
  ⟨by decide,
   (processFiles_notOk_message sampleState 422 (ErrorData.error "Unsupported file")
     (by decide)).2.1 "Unsupported file" rfl (by decide)⟩

/-- A non-2xx response whose body is the JSON text `null`: reading `errorData.error` throws a
`TypeError` inside the `try`, and the message shown carries the text of that error (here the
wording of V8) instead of the generic one. -/
theorem processFiles_notOk_null_body :
    (processFiles sampleState (UploadReply.notOk 500
        (ErrorData.threw "Cannot read properties of null (reading \x27error\x27)"))).messages =
      [{ text := "Error processing files: Cannot read properties of null (reading \x27error\x27)",
         type := "error" }] := by
  decide

/-- The upload outcome on a session whose review is hidden, as it is after a reset: with at
least one successful result the review and download sections are shown over a non-empty record
list, and with none the record list is empty, the sections stay hidden and the no-data message
is shown. -/
theorem processFiles_ok_review_hidden (s : State) (results : List UploadResult)
    (hstaged : s.selectedFiles ≠ [])
    (hhidden : s.reviewDisplayed = false ∧ s.downloadDisplayed = false) :
    ((∃ r ∈ results, r.status = "success") →
      (processFiles s (UploadReply.ok results)).reviewDisplayed = true ∧
      (processFiles s (UploadReply.ok results)).downloadDisplayed = true ∧
      (processFiles s (UploadReply.ok results)).extractedData ≠ []) ∧
    ((¬ ∃ r ∈ results, r.status = "success") →
      (processFiles s (UploadReply.ok results)).reviewDisplayed = false ∧
      (processFiles s (UploadReply.ok results)).downloadDisplayed = false ∧
      (processFiles s (UploadReply.ok results)).extractedData = [] ∧
      (processFiles s (UploadReply.ok results)).messages =
        s.messages ++ [{ text := noDataText, type := "error" }]) := by
  have hlen := selectedFiles_length_ne_zero s hstaged
  have hp : processFiles s (UploadReply.ok results) =
      processFilesResults (processFilesBegin s) results := by
    simp only [processFiles, hlen, if_false, processFilesEnd]
  rw [hp]
  constructor
  · rintro ⟨r, hr, hs⟩
    have hmem : r ∈ results.filter (fun r => decide (r.status = "success")) :=
      List.mem_filter.mpr ⟨hr, by simpa using hs⟩
    have hne : results.filter (fun r => decide (r.status = "success")) ≠ [] :=
      List.ne_nil_of_mem hmem
    have hl : ¬ ((results.filter (fun r => decide (r.status = "success"))).map
        (fun r => defineField r.data "thumbnail" r.thumbnail)).length = 0 := by
      simpa using hne
    simp only [processFilesResults, hl, if_false, showMessage]
    refine ⟨trivial, trivial, ?_⟩
    simpa using hne
  · intro hnone
    have hnil : results.filter (fun r => decide (r.status = "success")) = [] := by
      apply List.filter_eq_nil_iff.mpr
      intro r hr
      have : ¬ r.status = "success" := fun hs => hnone ⟨r, hr, hs⟩
      simpa using this
    simp only [processFilesResults, hnil, List.map_nil, List.length_nil, if_true, showMessage,
      processFilesBegin, hhidden.1, hhidden.2, noDataText]
    exact ⟨trivial, trivial, trivial, trivial⟩

/-- C17 (failing input). After a reset one PDF is staged and extracted, so the review is shown;
a second file is staged, which enables the process button, and the second upload extracts
nothing. The state before that upload is reachable, the no-data message is shown and the record
list is empty, yet the review and download sections are still displayed. -/
theorem processFiles_empty_result_keeps_review :
    Reachable asciiUpperMap restagedState ∧
    (reviewingState.reviewDisplayed = true ∧ reviewingState.downloadDisplayed = true ∧
      reviewingState.extractedData ≠ []) ∧
    restagedState.processBtnDisabled = false ∧
    Reachable asciiUpperMap (processFiles restagedState noSuccessReply) ∧
    (processFiles restagedState noSuccessReply).extractedData = [] ∧
    (processFiles restagedState noSuccessReply).messages.getLast? =
      some { text := noDataText, type := "error" } ∧
    (processFiles restagedState noSuccessReply).reviewDisplayed = true ∧
    (processFiles restagedState noSuccessReply).downloadDisplayed = true := by
  have hreach : Reachable asciiUpperMap restagedState :=
    Reachable.addFiles _ _
      (Reachable.processFiles _ _ (Reachable.addFiles _ _ (Reachable.reset sampleState))
        (by decide))
  exact ⟨hreach, by decide, by decide, Reachable.processFiles _ _ hreach (by decide), by decide,
    by decide, by decide, by decide⟩

/-- C18 (failing input). One PDF is staged and its upload is sent, which disables the process
button; while the request is outstanding a second file is staged, and the button is enabled
again, so a second upload can be submitted before the first completes. Removing a staged file
that leaves the list non-empty does the same. -/
theorem pending_upload_button_enabled :
    (processFilesBegin stagedState).processBtnDisabled = true ∧
    Pending asciiUpperMap stagedState
      (addFiles (processFilesBegin stagedState)
        [{ name := "scan2.png", size := 2048, type := "image/png" }]) ∧
    (addFiles (processFilesBegin stagedState)
        [{ name := "scan2.png", size := 2048, type := "image/png" }]).processBtnDisabled = false ∧
    Pending asciiUpperMap stagedState (removeFile (processFilesBegin stagedState) 1) ∧
    (removeFile (processFilesBegin stagedState) 1).processBtnDisabled = false := by
  refine ⟨by decide, ?_, by decide, ?_, by decide⟩
  · exact Pending.addFiles _ _ Pending.sent
  · exact Pending.removeFile _ _ Pending.sent

/-! ## Claims on loading and on repeated edits -/

/-! ### The stored text of a history is read back -/

theorem char_toNat_valid (c : Char) :
    c.toNat < 55296 ∨ (57343 < c.toNat ∧ c.toNat < 1114112) := by
  have h := c.valid
  simp only [UInt32.isValidChar, Nat.isValidChar] at h
  exact h

theorem decodeUnitsFrom_codeUnits (cs : List Char) :
    decodeUnitsFrom none (cs.map codeUnits).flatten = cs := by
  induction cs with
  | nil => rfl
  | cons c cs ih =>
    have hv := char_toNat_valid c
    simp only [List.map_cons, List.flatten_cons]
    by_cases hb : c.toNat < 65536
    · have hn : ¬ (55296 ≤ c.toNat ∧ c.toNat < 56320) := by omega
      have hu : unitChar c.toNat = c := by
        have : ¬ (55296 ≤ c.toNat ∧ c.toNat < 57344) := by omega
        simp only [unitChar, this, if_false, Char.ofNat_toNat]
      simp only [codeUnits, hb, if_true, List.singleton_append, decodeUnitsFrom, hn, if_false, hu,
        ih]
    · have h1 : 55296 ≤ 55296 + (c.toNat - 65536) / 1024 ∧
          55296 + (c.toNat - 65536) / 1024 < 56320 := by omega
      have h2 : 56320 ≤ 56320 + (c.toNat - 65536) % 1024 ∧
          56320 + (c.toNat - 65536) % 1024 < 57344 := by omega
      have h3 : 65536 + (55296 + (c.toNat - 65536) / 1024 - 55296) * 1024 +
          (56320 + (c.toNat - 65536) % 1024 - 56320) = c.toNat := by omega
      simp only [codeUnits, hb, if_false, List.cons_append, List.nil_append, decodeUnitsFrom, h1,
        h2, and_self, if_true, h3, Char.ofNat_toNat, ih]

theorem hex4_hexDigit (n : Nat) (h : n < 32) :
    hex4 '0' '0' (hexDigit (n / 16)) (hexDigit (n % 16)) = some n := by
  interval_cases n <;> rfl

theorem parseStringRest_escape (e : Char) (u : Nat) (rest : List Char) (acc : List Nat)
    (h : (e.toNat = 34 ∧ u = 34) ∨ (e.toNat = 92 ∧ u = 92) ∨ (e = 'b' ∧ u = 8) ∨
      (e = 't' ∧ u = 9) ∨ (e = 'n' ∧ u = 10) ∨ (e = 'f' ∧ u = 12) ∨ (e = 'r' ∧ u = 13)) :
    parseStringRest (Char.ofNat 92 :: e :: rest) acc = parseStringRest rest (u :: acc) := by
  have h1 : ¬ (Char.ofNat 92).toNat = 34 := by decide
  have h2 : (Char.ofNat 92).toNat = 92 := by decide
  rw [parseStringRest.eq_def]
  simp only
  rw [if_neg h1, if_pos h2]
  rcases h with ⟨he, rfl⟩ | ⟨he, rfl⟩ | ⟨rfl, rfl⟩ | ⟨rfl, rfl⟩ | ⟨rfl, rfl⟩ | ⟨rfl, rfl⟩ |
    ⟨rfl, rfl⟩
  · rw [if_pos he]
  · have : ¬ e.toNat = 34 := by omega
    rw [if_neg this, if_pos he]
  · rfl
  · rfl
  · rfl
  · rfl
  · rfl

theorem parseStringRest_unicode (n : Nat) (hn : n < 32) (rest : List Char) (acc : List Nat) :
    parseStringRest
        (Char.ofNat 92 :: 'u' :: '0' :: '0' :: hexDigit (n / 16) :: hexDigit (n % 16) :: rest) acc =
      parseStringRest rest (n :: acc) := by
  have h1 : ¬ (Char.ofNat 92).toNat = 34 := by decide
  have h2 : (Char.ofNat 92).toNat = 92 := by decide
  have h3 : ¬ ('u').toNat = 34 := by decide
  have h4 : ¬ ('u').toNat = 92 := by decide
  have h5 : ¬ ('u' = '/') := by decide
  have h6 : ¬ ('u' = 'b') := by decide
  have h7 : ¬ ('u' = 'f') := by decide
  have h8 : ¬ ('u' = 'n') := by decide
  have h9 : ¬ ('u' = 'r') := by decide
  have h10 : ¬ ('u' = 't') := by decide
  rw [parseStringRest.eq_def]
  simp only
  rw [if_neg h1, if_pos h2, if_neg h3, if_neg h4, if_neg h5, if_neg h6, if_neg h7, if_neg h8,
    if_neg h9, if_neg h10]
  simp only [if_true, hex4_hexDigit n hn]

theorem parseStringRest_char (c : Char) (rest : List Char) (acc : List Nat) :
    parseStringRest (quoteJSONChar c ++ rest) acc =
      parseStringRest rest ((codeUnits c).reverse ++ acc) := by
  have hq : (Char.ofNat 34).toNat = 34 := by decide
  have hb : (Char.ofNat 92).toNat = 92 := by decide
  have hunit : c.toNat < 65536 → codeUnits c = [c.toNat] := by
    intro h
    simp [codeUnits, h]
  by_cases c34 : c.toNat = 34
  · have hquote : quoteJSONChar c = [Char.ofNat 92, Char.ofNat 34] := by
      simp [quoteJSONChar, c34]
    rw [hquote, hunit (by omega), c34]
    exact parseStringRest_escape _ 34 rest acc (Or.inl ⟨hq, rfl⟩)
  by_cases c92 : c.toNat = 92
  · have hquote : quoteJSONChar c = [Char.ofNat 92, Char.ofNat 92] := by
      simp [quoteJSONChar, c92]
    rw [hquote, hunit (by omega), c92]
    exact parseStringRest_escape _ 92 rest acc (Or.inr (Or.inl ⟨hb, rfl⟩))
  by_cases c8 : c.toNat = 8
  · have hquote : quoteJSONChar c = [Char.ofNat 92, 'b'] := by
      simp [quoteJSONChar, c8]
    rw [hquote, hunit (by omega), c8]
    exact parseStringRest_escape _ 8 rest acc (Or.inr (Or.inr (Or.inl ⟨rfl, rfl⟩)))
  by_cases c9 : c.toNat = 9
  · have hquote : quoteJSONChar c = [Char.ofNat 92, 't'] := by
      simp [quoteJSONChar, c9]
    rw [hquote, hunit (by omega), c9]
    exact parseStringRest_escape _ 9 rest acc (Or.inr (Or.inr (Or.inr (Or.inl ⟨rfl, rfl⟩))))
  by_cases c10 : c.toNat = 10
  · have hquote : quoteJSONChar c = [Char.ofNat 92, 'n'] := by
      simp [quoteJSONChar, c10]
    rw [hquote, hunit (by omega), c10]
    exact parseStringRest_escape _ 10 rest acc
      (Or.inr (Or.inr (Or.inr (Or.inr (Or.inl ⟨rfl, rfl⟩)))))
  by_cases c12 : c.toNat = 12
  · have hquote : quoteJSONChar c = [Char.ofNat 92, 'f'] := by
      simp [quoteJSONChar, c12]
    rw [hquote, hunit (by omega), c12]
    exact parseStringRest_escape _ 12 rest acc
      (Or.inr (Or.inr (Or.inr (Or.inr (Or.inr (Or.inl ⟨rfl, rfl⟩))))))
  by_cases c13 : c.toNat = 13
  · have hquote : quoteJSONChar c = [Char.ofNat 92, 'r'] := by
      simp [quoteJSONChar, c13]
    rw [hquote, hunit (by omega), c13]
    exact parseStringRest_escape _ 13 rest acc
      (Or.inr (Or.inr (Or.inr (Or.inr (Or.inr (Or.inr ⟨rfl, rfl⟩))))))
  by_cases c32 : c.toNat < 32
  · have hquote : quoteJSONChar c =
        [Char.ofNat 92, 'u', '0', '0', hexDigit (c.toNat / 16), hexDigit (c.toNat % 16)] := by
      simp [quoteJSONChar, c34, c92, c8, c9, c10, c12, c13, c32]
    rw [hquote, hunit (by omega)]
    exact parseStringRest_unicode c.toNat c32 rest acc
  · have hquote : quoteJSONChar c = [c] := by
      simp [quoteJSONChar, c34, c92, c8, c9, c10, c12, c13, c32]
    rw [hquote]
    simp only [List.cons_append, List.nil_append]
    rw [parseStringRest.eq_def]
    simp only
    rw [if_neg c34, if_neg c92, if_neg c32]

theorem parseStringRest_quoted (cs : List Char) :
    ∀ (acc : List Nat) (more : List Char),
      parseStringRest ((cs.map quoteJSONChar).flatten ++ Char.ofNat 34 :: more) acc =
        some (⟨decodeUnits (acc.reverse ++ (cs.map codeUnits).flatten)⟩, more) := by
  induction cs with
  | nil =>
    intro acc more
    have hq : (Char.ofNat 34).toNat = 34 := by decide
    simp only [List.map_nil, List.flatten_nil, List.nil_append, List.append_nil]
    rw [parseStringRest.eq_def]
    simp only
    rw [if_pos hq]
  | cons c cs ih =>
    intro acc more
    simp only [List.map_cons, List.flatten_cons, List.append_assoc]
    rw [parseStringRest_char, ih]
    simp

theorem parseStringRest_quoteJSONString (s : String) (more : List Char) :
    parseStringRest ((quoteJSONString s).data.tail ++ more) [] = some (s, more) := by
  have h : (quoteJSONString s).data.tail ++ more =
      (s.data.map quoteJSONChar).flatten ++ Char.ofNat 34 :: more := by
    simp [quoteJSONString]
  rw [h, parseStringRest_quoted]
  simp only [List.reverse_nil, List.nil_append, decodeUnits, decodeUnitsFrom_codeUnits]

theorem intercalate_go_data (sep : String) (rest : List String) :
    ∀ acc : String, (String.intercalate.go acc sep rest).data =
      acc.data ++ (rest.map (fun a => sep.data ++ a.data)).flatten := by
  induction rest with
  | nil => intro acc; simp [String.intercalate.go]
  | cons a rest ih =>
    intro acc
    simp only [String.intercalate.go, ih, String.data_append, List.map_cons, List.flatten_cons,
      List.append_assoc]

theorem quoteJSONString_data (s : String) :
    (quoteJSONString s).data =
      Char.ofNat 34 :: ((s.data.map quoteJSONChar).flatten ++ [Char.ofNat 34]) := by
  simp [quoteJSONString]

theorem jsonStringify_data_nil : (jsonStringify []).data = ['[', Char.ofNat 93] := by
  decide

theorem jsonStringify_data_cons (n : String) (rest : List String) :
    (jsonStringify (n :: rest)).data =
      '[' :: ((quoteJSONString n).data ++
        ((rest.map (fun a => ',' :: (quoteJSONString a).data)).flatten ++ [Char.ofNat 93])) := by
  have hsep : (",".data : List Char) = [','] := rfl
  have hopen : ("[".data : List Char) = ['['] := rfl
  have hclose : ("]".data : List Char) = [Char.ofNat 93] := by decide
  simp only [jsonStringify, String.data_append, List.map_cons, String.intercalate,
    intercalate_go_data, hsep, hopen, hclose, List.map_map, List.singleton_append,
    List.cons_append, List.nil_append, List.append_assoc]
  rfl

theorem length_le_flatten_separated (rest : List String) :
    rest.length ≤ (rest.map (fun a => ',' :: (quoteJSONString a).data)).flatten.length := by
  induction rest with
  | nil => simp
  | cons a rest ih =>
    simp only [List.map_cons, List.flatten_cons, List.length_append, List.length_cons]
    omega

theorem parseValue_quoteJSONString (fuel : Nat) (s : String) (more : List Char) :
    parseValue (fuel + 1) ((quoteJSONString s).data ++ more) = some (Json.str s, more) := by
  have hq : (Char.ofNat 34).toNat = 34 := by decide
  have htail := parseStringRest_quoteJSONString s more
  rw [quoteJSONString_data] at htail ⊢
  simp only [List.tail_cons] at htail
  simp only [List.cons_append]
  rw [parseValue]
  simp only [hq, if_true, htail, Option.map_some']

theorem parseItems_quoted (rest : List String) :
    ∀ (n : String) (fuel : Nat) (more : List Char), rest.length + 2 ≤ fuel →
      parseItems fuel ((quoteJSONString n).data ++
          ((rest.map (fun a => ',' :: (quoteJSONString a).data)).flatten ++
            Char.ofNat 93 :: more)) =
        some ((n :: rest).map Json.str, more) := by
  have h93 : (Char.ofNat 93).toNat = 93 := by decide
  have hsp93 : isJsonSpace (Char.ofNat 93) = false := by decide
  have hc1 : ¬ (',').toNat = 93 := by decide
  have hc2 : (',').toNat = 44 := by decide
  have hspc : isJsonSpace ',' = false := by decide
  have hspq : isJsonSpace (Char.ofNat 34) = false := by decide
  induction rest with
  | nil =>
    intro n fuel more hfuel
    obtain ⟨f, rfl⟩ : ∃ f, fuel = f + 1 + 1 := ⟨fuel - 2, by simp at hfuel; omega⟩
    simp only [List.map_nil, List.flatten_nil, List.nil_append, List.map_cons]
    rw [parseItems, parseValue_quoteJSONString]
    simp only [List.dropWhile_cons, hsp93, Bool.false_eq_true, if_false, h93, if_true]
  | cons a rest ih =>
    intro n fuel more hfuel
    obtain ⟨f, rfl⟩ : ∃ f, fuel = f + 1 + 1 := ⟨fuel - 2, by simp at hfuel; omega⟩
    have hf : rest.length + 2 ≤ f + 1 := by
      simp only [List.length_cons] at hfuel
      omega
    have ih' := ih a (f + 1) more hf
    have hdrop : List.dropWhile isJsonSpace ((quoteJSONString a).data ++
        ((rest.map (fun a => ',' :: (quoteJSONString a).data)).flatten ++
          Char.ofNat 93 :: more)) =
        (quoteJSONString a).data ++
          ((rest.map (fun a => ',' :: (quoteJSONString a).data)).flatten ++
            Char.ofNat 93 :: more) := by
      rw [quoteJSONString_data a]
      simp only [List.cons_append, List.dropWhile_cons, hspq, Bool.false_eq_true, if_false]
    simp only [List.map_cons, List.flatten_cons, List.cons_append, List.append_assoc]
    rw [parseItems, parseValue_quoteJSONString]
    simp only [List.dropWhile_cons, hspc, Bool.false_eq_true, if_false, hc1, hc2, if_true]
    rw [hdrop, ih']
    simp

theorem asStrings_arr (names : List String) :
    asStrings (Json.arr (names.map Json.str)) = some names := by
  simp only [asStrings]
  induction names with
  | nil => rfl
  | cons n names ih =>
    simp only [List.map_cons, List.mapM_cons, ih]
    rfl

theorem parseValue_jsonStringify (names : List String) (fuel : Nat)
    (hfuel : names.length + 2 ≤ fuel) :
    parseValue fuel (jsonStringify names).data = some (Json.arr (names.map Json.str), []) := by
  have h1 : ¬ ('[').toNat = 34 := by decide
  have h2 : ('[').toNat = 91 := by decide
  have h93 : (Char.ofNat 93).toNat = 93 := by decide
  have hsp93 : isJsonSpace (Char.ofNat 93) = false := by decide
  have hspq : isJsonSpace (Char.ofNat 34) = false := by decide
  have hq93 : ¬ (Char.ofNat 34).toNat = 93 := by decide
  obtain ⟨f, rfl⟩ : ∃ f, fuel = f + 1 := ⟨fuel - 1, by omega⟩
  cases names with
  | nil =>
    rw [jsonStringify_data_nil, parseValue]
    simp only [h1, h2, if_false, if_true, List.dropWhile_cons, hsp93, Bool.false_eq_true, h93,
      List.map_nil]
    simp
  | cons n rest =>
    have hitems := parseItems_quoted rest n f [] (by simp only [List.length_cons] at hfuel; omega)
    rw [jsonStringify_data_cons, parseValue]
    simp only [h1, h2, if_false, if_true]
    rw [quoteJSONString_data n] at hitems ⊢
    simp only [List.cons_append, List.dropWhile_cons, hspq, Bool.false_eq_true, if_false, hq93,
      List.append_assoc] at hitems ⊢
    rw [hitems]
    simp

theorem length_le_jsonStringify (names : List String) :
    names.length ≤ (jsonStringify names).data.length := by
  cases names with
  | nil => simp
  | cons n rest =>
    rw [jsonStringify_data_cons]
    have := length_le_flatten_separated rest
    simp only [List.length_cons, List.length_append]
    omega

theorem jsonParse_jsonStringify (names : List String) :
    jsonParse (jsonStringify names) = some (Json.arr (names.map Json.str)) := by
  have hdrop : (jsonStringify names).data.dropWhile isJsonSpace = (jsonStringify names).data := by
    have hsp : isJsonSpace '[' = false := by decide
    cases names with
    | nil => rw [jsonStringify_data_nil]; simp [hsp]
    | cons n rest => rw [jsonStringify_data_cons]; simp [hsp]
  have hlen := length_le_jsonStringify names
  unfold jsonParse
  rw [hdrop, parseValue_jsonStringify names _ (by omega)]
  simp

/-- The text that `updateData` writes to storage is read back as the history it was written
from. -/
theorem loadSellerHistory_jsonStringify (names : List String) :
    loadSellerHistory (some (jsonStringify names)) = Loaded.history names := by
  have ht : truthy (jsonStringify names) = true := by
    cases names with
    | nil => decide
    | cons n rest => simp [truthy, jsonStringify_data_cons]
  simp only [loadSellerHistory, ht, if_true, jsonParse_jsonStringify, asStrings_arr]

/-- C19 (as stated, refuted). With the stored string `oops`, which is not JSON, the statement
that initialises the history throws instead of yielding the empty list; with the stored string
`42`, which is JSON but no array of strings, the variable holds that value, not the empty
list. -/
theorem loadSellerHistory_unparsable :
    loadSellerHistory (some "oops") = Loaded.threw ∧
    loadSellerHistory (some "oops") ≠ Loaded.history [] ∧
    loadSellerHistory (some "42") = Loaded.other ∧
    loadSellerHistory (some "42") ≠ Loaded.history [] := by
  decide

/-- C19 (amended). When the key `sellerHistory` is absent, or holds the empty string, the
initial history is the empty list. Any other stored string is handed to `JSON.parse` as it is:
a string that is not JSON makes the load throw, JSON for an array of strings gives that array,
and JSON for anything else is installed unchanged; none of these is replaced by the empty list.
The text that `updateData` writes is the JSON of the history it keeps, and that text is read
back as the same history. -/
theorem loadSellerHistory_cases :
    loadSellerHistory none = Loaded.history [] ∧
    loadSellerHistory (some "") = Loaded.history [] ∧
    (∀ t : String, truthy t = true → jsonParse t = none →
      loadSellerHistory (some t) = Loaded.threw) ∧
    (∀ (t : String) (j : Json) (names : List String), truthy t = true → jsonParse t = some j →
      asStrings j = some names → loadSellerHistory (some t) = Loaded.history names) ∧
    (∀ (t : String) (j : Json), truthy t = true → jsonParse t = some j → asStrings j = none →
      loadSellerHistory (some t) = Loaded.other) ∧
    (∀ names : List String,
      loadSellerHistory (some (jsonStringify names)) = Loaded.history names) ∧
    (∀ (upperMap : Char → List Char) (s : State) (i : Int) (f v : String),
      (updateData upperMap s i f v).storedSellerHistory = s.storedSellerHistory ∨
      (updateData upperMap s i f v).storedSellerHistory =
        some (jsonStringify (updateData upperMap s i f v).sellerHistory)) := by
  refine ⟨by decide, by decide, ?_, ?_, ?_, loadSellerHistory_jsonStringify, ?_⟩
  · intro t ht hp
    simp only [loadSellerHistory, ht, if_true, hp]
  · intro t j names ht hp hs
    simp only [loadSellerHistory, ht, if_true, hp, hs]
  · intro t j ht hp hs
    simp only [loadSellerHistory, ht, if_true, hp, hs]
  · intro upperMap s i f v
    unfold updateData
    cases elementAt s.extractedData i with
    | none => exact Or.inl rfl
    | some r =>
      simp only
      split_ifs
      all_goals first
        | exact Or.inl rfl
        | exact Or.inr rfl

/-- Instance of C19: the stored text of a one-name history, and a stored text cut short. -/
theorem loadSellerHistory_cases_witness :
    (truthy "[\"Ann\"]" = true ∧ truthy "[\"Ann\"" = true ∧ jsonParse "[\"Ann\"" = none) ∧
    loadSellerHistory (some "[\"Ann\"]") = Loaded.history ["Ann"] ∧
    loadSellerHistory (some "[\"Ann\"") = Loaded.threw :=
  ⟨⟨by decide, by decide, by rfl⟩, by decide,
   loadSellerHistory_cases.2.2.1 "[\"Ann\"" (by decide) (by rfl)⟩

/-! ### The body of an export is read back -/

theorem intercalate_data_cons (x : String) (rest : List String) :
    (",".intercalate (x :: rest)).data =
      x.data ++ (rest.map (fun a => ',' :: a.data)).flatten := by
  have hsep : (",".data : List Char) = [','] := rfl
  simp only [String.intercalate, intercalate_go_data, hsep, List.singleton_append]

theorem length_le_flatten_commas (rest : List String) :
    rest.length ≤ (rest.map (fun a => ',' :: a.data)).flatten.length := by
  induction rest with
  | nil => simp
  | cons a rest ih =>
    simp only [List.map_cons, List.flatten_cons, List.length_append, List.length_cons]
    omega

theorem parseValue_null (fuel : Nat) (more : List Char) :
    parseValue (fuel + 1) ('n' :: 'u' :: 'l' :: 'l' :: more) = some (Json.null, more) := by
  have h1 : ¬ ('n').toNat = 34 := by decide
  have h2 : ¬ ('n').toNat = 91 := by decide
  have h3 : ¬ ('n').toNat = 123 := by decide
  have h4 : ¬ ('n' = 't') := by decide
  have h5 : ¬ ('n' = 'f') := by decide
  rw [parseValue]
  simp [h1, h2, h3, h4, h5]

theorem dropWhile_quoteJSONString (k : String) (more : List Char) :
    ((quoteJSONString k).data ++ more).dropWhile isJsonSpace =
      (quoteJSONString k).data ++ more := by
  have hspq : isJsonSpace (Char.ofNat 34) = false := by decide
  rw [quoteJSONString_data]
  simp only [List.cons_append, List.dropWhile_cons, hspq, Bool.false_eq_true, if_false]

/-- One member of an object is read: its name, the colon, its value, and then either the
closing brace or a comma and the members that follow. -/
theorem parseMembers_step (k : String) (valueChars : List Char) (v : Json) (fuel : Nat)
    (hv : ∀ more, parseValue (fuel + 1) (valueChars ++ more) = some (v, more))
    (hsp : ∀ more, (valueChars ++ more).dropWhile isJsonSpace = valueChars ++ more)
    (d : Char) (rest : List Char) (hd : isJsonSpace d = false) :
    parseMembers (fuel + 2) ((quoteJSONString k).data ++ ':' :: (valueChars ++ d :: rest)) =
      if d.toNat = 125 then some ([(k, v)], rest)
      else if d.toNat = 44 then
        (parseMembers (fuel + 1) (rest.dropWhile isJsonSpace)).map
          (fun q => ((k, v) :: q.1, q.2))
      else none := by
  have hq : (Char.ofNat 34).toNat = 34 := by decide
  have hcolon : (':').toNat = 58 := by decide
  have hspcolon : isJsonSpace ':' = false := by decide
  have htail := parseStringRest_quoteJSONString k (':' :: (valueChars ++ d :: rest))
  rw [quoteJSONString_data] at htail ⊢
  simp only [List.tail_cons] at htail
  simp only [List.cons_append]
  rw [parseMembers]
  simp only [hq, if_true, htail, List.dropWhile_cons, hspcolon, Bool.false_eq_true, if_false,
    hcolon, hsp, hv, hd]

/-- What a property contributes to the text and to the value of its record. -/
theorem member_cases (p : String × JsValue) :
    (jsonMember p = none ∧ memberJson p = none) ∨
    ∃ (valueChars : List Char) (v : Json) (t : String),
      jsonMember p = some t ∧ memberJson p = some (p.1, v) ∧
      t.data = (quoteJSONString p.1).data ++ ':' :: valueChars ∧
      (∀ fuel more, parseValue (fuel + 1) (valueChars ++ more) = some (v, more)) ∧
      (∀ more, (valueChars ++ more).dropWhile isJsonSpace = valueChars ++ more) := by
  obtain ⟨k, val⟩ := p
  cases val with
  | undefined => exact Or.inl ⟨rfl, rfl⟩
  | null =>
    refine Or.inr ⟨['n', 'u', 'l', 'l'], Json.null, _, rfl, rfl, ?_, ?_, ?_⟩
    · simp only [String.data_append]
    · intro fuel more
      exact parseValue_null fuel more
    · intro more
      have hn : isJsonSpace 'n' = false := by decide
      simp only [List.cons_append, List.dropWhile_cons, hn, Bool.false_eq_true, if_false]
  | str w =>
    refine Or.inr ⟨(quoteJSONString w).data, Json.str w, _, rfl, rfl, ?_, ?_, ?_⟩
    · simp only [String.data_append, List.append_assoc, List.singleton_append]
    · intro fuel more
      exact parseValue_quoteJSONString fuel w more
    · intro more
      exact dropWhile_quoteJSONString w more

theorem parseMembers_entries (es : List (String × JsValue)) :
    ∀ (k : String) (valueChars : List Char) (v : Json) (fuel : Nat) (more : List Char),
      (∀ fuel more, parseValue (fuel + 1) (valueChars ++ more) = some (v, more)) →
      (∀ more, (valueChars ++ more).dropWhile isJsonSpace = valueChars ++ more) →
      (es.filterMap jsonMember).length + 2 ≤ fuel →
      parseMembers fuel ((quoteJSONString k).data ++ ':' :: (valueChars ++
          (((es.filterMap jsonMember).map (fun a => ',' :: a.data)).flatten ++
            Char.ofNat 125 :: more))) =
        some ((k, v) :: es.filterMap memberJson, more) := by
  have h125 : (Char.ofNat 125).toNat = 125 := by decide
  have hsp125 : isJsonSpace (Char.ofNat 125) = false := by decide
  have hc1 : ¬ (',').toNat = 125 := by decide
  have hc2 : (',').toNat = 44 := by decide
  have hspc : isJsonSpace ',' = false := by decide
  induction es with
  | nil =>
    intro k valueChars v fuel more hv hsp hfuel
    obtain ⟨f, rfl⟩ : ∃ f, fuel = f + 2 := ⟨fuel - 2, by omega⟩
    simp only [List.filterMap_nil, List.map_nil, List.flatten_nil, List.nil_append]
    rw [parseMembers_step k valueChars v f (hv f) hsp _ _ hsp125, if_pos h125]
  | cons e es ih =>
    intro k valueChars v fuel more hv hsp hfuel
    rcases member_cases e with ⟨hj, hm⟩ | ⟨vc, w, t, hj, hm, ht, hvw, hspw⟩
    · simp only [List.filterMap_cons, hj, hm] at hfuel ⊢
      exact ih k valueChars v fuel more hv hsp hfuel
    · simp only [List.filterMap_cons, hj, hm, List.length_cons] at hfuel ⊢
      obtain ⟨f, rfl⟩ : ∃ f, fuel = f + 2 := ⟨fuel - 2, by omega⟩
      simp only [List.map_cons, List.flatten_cons, List.cons_append, List.append_assoc]
      rw [parseMembers_step k valueChars v f (hv f) hsp _ _ hspc, if_neg hc1, if_pos hc2, ht]
      simp only [List.append_assoc, List.cons_append]
      rw [dropWhile_quoteJSONString, ih e.1 vc w (f + 1) more hvw hspw (by omega)]
      rfl

/-- The text of a record, after the opening brace, for a list of properties. -/
theorem parseValue_entries (es : List (String × JsValue)) (fuel : Nat) (more : List Char)
    (hfuel : (es.filterMap jsonMember).length + 2 ≤ fuel) :
    parseValue fuel (Char.ofNat 123 :: ((",".intercalate (es.filterMap jsonMember)).data ++
        Char.ofNat 125 :: more)) =
      some (Json.obj (es.filterMap memberJson), more) := by
  have h1 : ¬ (Char.ofNat 123).toNat = 34 := by decide
  have h2 : ¬ (Char.ofNat 123).toNat = 91 := by decide
  have h3 : (Char.ofNat 123).toNat = 123 := by decide
  have h125 : (Char.ofNat 125).toNat = 125 := by decide
  have hsp125 : isJsonSpace (Char.ofNat 125) = false := by decide
  have hspq : isJsonSpace (Char.ofNat 34) = false := by decide
  have hq125 : ¬ (Char.ofNat 34).toNat = 125 := by decide
  induction es with
  | nil =>
    obtain ⟨f, rfl⟩ : ∃ f, fuel = f + 1 := ⟨fuel - 1, by omega⟩
    have hnil : (",".intercalate ([] : List String)).data = [] := rfl
    simp only [List.filterMap_nil, hnil, List.nil_append]
    rw [parseValue]
    simp [hsp125]
  | cons e es ih =>
    rcases member_cases e with ⟨hj, hm⟩ | ⟨vc, w, t, hj, hm, ht, hvw, hspw⟩
    · simp only [List.filterMap_cons, hj, hm] at hfuel ⊢
      exact ih hfuel
    · simp only [List.filterMap_cons, hj, hm, List.length_cons] at hfuel ⊢
      obtain ⟨f, rfl⟩ : ∃ f, fuel = f + 1 := ⟨fuel - 1, by omega⟩
      have hmem := parseMembers_entries es e.1 vc w f more hvw hspw (by omega)
      rw [intercalate_data_cons, ht, parseValue]
      simp only [h1, h2, h3, if_false, if_true]
      rw [quoteJSONString_data] at hmem ⊢
      simp only [List.cons_append, List.append_assoc, List.dropWhile_cons, hspq,
        Bool.false_eq_true, if_false, hq125] at hmem ⊢
      rw [hmem]
      rfl

theorem jsonStringifyRecord_data (r : Record) :
    (jsonStringifyRecord r).data =
      Char.ofNat 123 :: ((",".intercalate (recordMembers r)).data ++ [Char.ofNat 125]) := by
  simp only [jsonStringifyRecord, String.data_append]
  rfl

theorem length_recordMembers (r : Record) :
    (recordMembers r).length + 1 ≤ (jsonStringifyRecord r).data.length := by
  rw [jsonStringifyRecord_data]
  cases h : recordMembers r with
  | nil => simp
  | cons x rest =>
    rw [intercalate_data_cons]
    have := length_le_flatten_commas rest
    simp only [List.length_cons, List.length_append]
    omega

/-- The text of a record is read back as the value of the record. -/
theorem parseValue_record (r : Record) (fuel : Nat) (more : List Char)
    (hfuel : (jsonStringifyRecord r).data.length + 1 ≤ fuel) :
    parseValue fuel ((jsonStringifyRecord r).data ++ more) = some (recordJson r, more) := by
  have hlen := length_recordMembers r
  have h := parseValue_entries (orderedEntries r) fuel more (by
    unfold recordMembers at hlen
    omega)
  rw [jsonStringifyRecord_data]
  simp only [List.cons_append, List.append_assoc, List.nil_append]
  exact h

theorem dropWhile_jsonStringifyRecord (r : Record) (more : List Char) :
    ((jsonStringifyRecord r).data ++ more).dropWhile isJsonSpace =
      (jsonStringifyRecord r).data ++ more := by
  have hsp : isJsonSpace (Char.ofNat 123) = false := by decide
  rw [jsonStringifyRecord_data]
  simp only [List.cons_append, List.dropWhile_cons, hsp, Bool.false_eq_true, if_false]

theorem parseItems_records (rs : List Record) :
    ∀ (r : Record) (fuel : Nat) (more : List Char),
      ((jsonStringifyRecord r).data ++
        (rs.map (fun a => ',' :: (jsonStringifyRecord a).data)).flatten).length + 2 ≤ fuel →
      parseItems fuel ((jsonStringifyRecord r).data ++
          ((rs.map (fun a => ',' :: (jsonStringifyRecord a).data)).flatten ++
            Char.ofNat 93 :: more)) =
        some ((r :: rs).map recordJson, more) := by
  have h93 : (Char.ofNat 93).toNat = 93 := by decide
  have hsp93 : isJsonSpace (Char.ofNat 93) = false := by decide
  have hc1 : ¬ (',').toNat = 93 := by decide
  have hc2 : (',').toNat = 44 := by decide
  have hspc : isJsonSpace ',' = false := by decide
  induction rs with
  | nil =>
    intro r fuel more hfuel
    obtain ⟨f, rfl⟩ : ∃ f, fuel = f + 1 := ⟨fuel - 1, by omega⟩
    simp only [List.map_nil, List.flatten_nil, List.nil_append, List.append_nil,
      List.map_cons] at hfuel ⊢
    rw [parseItems, parseValue_record r f _ (by omega)]
    simp only [List.dropWhile_cons, hsp93, Bool.false_eq_true, if_false, h93, if_true]
  | cons a rs ih =>
    intro r fuel more hfuel
    obtain ⟨f, rfl⟩ : ∃ f, fuel = f + 1 := ⟨fuel - 1, by omega⟩
    simp only [List.map_cons, List.flatten_cons, List.cons_append, List.append_assoc,
      List.length_append, List.length_cons] at hfuel ⊢
    rw [parseItems, parseValue_record r f _ (by omega)]
    simp only [List.dropWhile_cons, hspc, Bool.false_eq_true, if_false, hc1, hc2, if_true]
    rw [dropWhile_jsonStringifyRecord, ih a f more (by
      simp only [List.length_append]
      omega)]
    rfl

theorem exportBody_data (records : List Record) :
    (exportBody records).data =
      Char.ofNat 123 :: ((quoteJSONString "data").data ++ ':' :: ('[' ::
        ((",".intercalate (records.map jsonStringifyRecord)).data ++
          [Char.ofNat 93]) ++ [Char.ofNat 125])) := by
  simp only [exportBody, String.data_append]
  rfl

/-- The text of the array of the records is read back as the array of their values. -/
theorem parseValue_records (records : List Record) (fuel : Nat) (more : List Char)
    (hfuel : (",".intercalate (records.map jsonStringifyRecord)).data.length + 3 ≤ fuel) :
    parseValue fuel ('[' :: ((",".intercalate (records.map jsonStringifyRecord)).data ++
        [Char.ofNat 93]) ++ more) =
      some (Json.arr (records.map recordJson), more) := by
  have h1 : ¬ ('[').toNat = 34 := by decide
  have h2 : ('[').toNat = 91 := by decide
  have h93 : (Char.ofNat 93).toNat = 93 := by decide
  have hsp93 : isJsonSpace (Char.ofNat 93) = false := by decide
  have hsp : isJsonSpace (Char.ofNat 123) = false := by decide
  have hb93 : ¬ (Char.ofNat 123).toNat = 93 := by decide
  obtain ⟨f, rfl⟩ : ∃ f, fuel = f + 1 := ⟨fuel - 1, by omega⟩
  cases records with
  | nil =>
    have hnil : (",".intercalate ([] : List String)).data = [] := rfl
    simp only [List.map_nil, hnil, List.nil_append, List.cons_append]
    rw [parseValue]
    simp [hsp93]
  | cons r rs =>
    simp only [List.map_cons, intercalate_data_cons, List.map_map] at hfuel ⊢
    have hitems := parseItems_records rs r f more (by
      simp only [Function.comp_def] at hfuel
      omega)
    simp only [List.cons_append, List.append_assoc, List.nil_append, Function.comp_def]
    rw [parseValue]
    simp only [h1, h2, if_false, if_true]
    rw [jsonStringifyRecord_data r] at hitems ⊢
    simp only [List.cons_append, List.append_assoc, List.dropWhile_cons, hsp,
      Bool.false_eq_true, if_false, hb93, List.nil_append] at hitems ⊢
    rw [hitems]
    rfl

theorem parseValue_exportBody (records : List Record) (f : Nat)
    (hf : (",".intercalate (records.map jsonStringifyRecord)).data.length + 2 ≤ f) :
    parseValue (f + 3) (exportBody records).data = some (bodyJson records, []) := by
  have h1 : ¬ (Char.ofNat 123).toNat = 34 := by decide
  have h2 : ¬ (Char.ofNat 123).toNat = 91 := by decide
  have h3 : (Char.ofNat 123).toNat = 123 := by decide
  have h125 : (Char.ofNat 125).toNat = 125 := by decide
  have hsp125 : isJsonSpace (Char.ofNat 125) = false := by decide
  have hspq : isJsonSpace (Char.ofNat 34) = false := by decide
  have hq125 : ¬ (Char.ofNat 34).toNat = 125 := by decide
  have hspb : isJsonSpace '[' = false := by decide
  have hstep := parseMembers_step "data"
    ('[' :: ((",".intercalate (records.map jsonStringifyRecord)).data ++ [Char.ofNat 93]))
    (Json.arr (records.map recordJson)) f
    (fun more => parseValue_records records (f + 1) more (by omega))
    (fun more => by
      simp only [List.cons_append, List.dropWhile_cons, hspb, Bool.false_eq_true, if_false])
    (Char.ofNat 125) [] hsp125
  rw [if_pos h125] at hstep
  rw [exportBody_data, parseValue]
  simp only [h1, h2, h3, if_false, if_true]
  rw [quoteJSONString_data] at hstep ⊢
  simp only [List.cons_append, List.append_assoc, List.dropWhile_cons, hspq,
    Bool.false_eq_true, if_false, hq125, List.nil_append] at hstep ⊢
  rw [hstep]
  rfl

/-- The body of an export is JSON text, and `JSON.parse` reads it as `{ data: records }`. -/
theorem jsonParse_exportBody (records : List Record) :
    jsonParse (exportBody records) = some (bodyJson records) := by
  have hsp : isJsonSpace (Char.ofNat 123) = false := by decide
  have hdrop : (exportBody records).data.dropWhile isJsonSpace = (exportBody records).data := by
    rw [exportBody_data]
    simp only [List.dropWhile_cons, hsp, Bool.false_eq_true, if_false]
  have hlen : (",".intercalate (records.map jsonStringifyRecord)).data.length + 1 ≤
      (exportBody records).data.length := by
    rw [exportBody_data]
    simp only [List.length_cons, List.length_append]
    omega
  obtain ⟨f, hf⟩ : ∃ f, 2 * (exportBody records).data.length + 4 = f + 3 :=
    ⟨2 * (exportBody records).data.length + 1, by omega⟩
  unfold jsonParse
  rw [hdrop, hf, parseValue_exportBody records f (by omega)]
  rfl

theorem mem_of_getField (r : Record) (k : String) (w : JsValue) (h : getField r k = w)
    (hw : w ≠ JsValue.undefined) : (k, w) ∈ r := by
  induction r with
  | nil => exact absurd h.symm hw
  | cons p r ih =>
    obtain ⟨k2, w2⟩ := p
    by_cases hk : k2 = k
    · simp only [getField, hk, if_true] at h
      rw [hk, h]
      exact List.mem_cons_self _ _
    · simp only [getField, hk, if_false] at h
      exact List.mem_cons_of_mem _ (ih h)

/-- A string read from a field of a record is in the value of the record under the name of the
field. -/
theorem mem_recordJson (r : Record) (k w : String) (h : getField r k = JsValue.str w) :
    (k, Json.str w) ∈ (orderedEntries r).filterMap memberJson := by
  rw [List.mem_filterMap]
  exact ⟨(k, JsValue.str w),
    mem_orderedEntries r _ (mem_of_getField r k _ h (fun hc => JsValue.noConfusion hc)), rfl⟩

theorem elementAt_map {α β : Type} (g : α → β) (xs : List α) (i : Int) :
    elementAt (xs.map g) i = (elementAt xs i).map g := by
  unfold elementAt
  split
  · rfl
  · simp

/-- C14. For every record list and each of the three exports, the request body is the JSON
serialization of `{ data: extractedData }` with the records as they stand: `JSON.parse` reads
the body back as the object whose only member `data` is the array of the records, each with
its fields that are not `undefined`; the three formats send the same body; every string read
from a field of a record is in the body under the name of the field, in the object at the index
of the record, and so is the value that the last `updateData` stored; and running an export,
whatever the reply, leaves the records as they are. -/
theorem export_bodies (s : State) :
    (jsonParse (downloadExcelRequest s).body = some (bodyJson s.extractedData) ∧
      (downloadSinglePDFRequest s).body = (downloadExcelRequest s).body ∧
      (downloadPDFsRequest s).body = (downloadExcelRequest s).body) ∧
    (∀ (j : Int) (r : Record) (k w : String), elementAt s.extractedData j = some r →
      getField r k = JsValue.str w →
      ∃ (items : List Json) (members : List (String × Json)),
        jsonParse (downloadExcelRequest s).body = some (Json.obj [("data", Json.arr items)]) ∧
        items.length = s.extractedData.length ∧
        elementAt items j = some (Json.obj members) ∧
        (k, Json.str w) ∈ members) ∧
    (∀ (upperMap : Char → List Char) (i : Int) (f v : String),
      0 ≤ i → i < s.extractedData.length → f ≠ "__proto__" →
      ∃ (items : List Json) (members : List (String × Json)),
        jsonParse (downloadExcelRequest (updateData upperMap s i f v)).body =
          some (Json.obj [("data", Json.arr items)]) ∧
        items.length = s.extractedData.length ∧
        elementAt items i = some (Json.obj members) ∧
        (f, Json.str (storedValue upperMap f v)) ∈ members) ∧
    (∀ reply : ExportReply,
      (downloadExcel s reply).extractedData = s.extractedData ∧
      (downloadSinglePDF s reply).extractedData = s.extractedData ∧
      (downloadPDFs s reply).extractedData = s.extractedData) ∧
    (downloadExcelRequest (updateData asciiUpperMap sampleState 1 "vin" "1a2 b3c")).body =
      "\x7b\"data\":[\x7b\"seller_name\":\"Ann\",\"vin\":\"OLDVIN\",\"odometer\":\"1\"\x7d,\x7b\"seller_name\":null,\"vin\":\"1A2B3C\",\"thumbnail\":\"data:image/png;base64,AAAA\"\x7d]\x7d" := by
  have hbody : ∀ (t : State) (j : Int) (r : Record) (k w : String),
      elementAt t.extractedData j = some r → getField r k = JsValue.str w →
      ∃ (items : List Json) (members : List (String × Json)),
        jsonParse (downloadExcelRequest t).body = some (Json.obj [("data", Json.arr items)]) ∧
        items.length = t.extractedData.length ∧
        elementAt items j = some (Json.obj members) ∧
        (k, Json.str w) ∈ members := by
    intro t j r k w hr hk
    refine ⟨t.extractedData.map recordJson, (orderedEntries r).filterMap memberJson,
      jsonParse_exportBody t.extractedData, List.length_map _ _, ?_, mem_recordJson r k w hk⟩
    rw [elementAt_map, hr]
    rfl
  refine ⟨⟨jsonParse_exportBody s.extractedData, rfl, rfl⟩, hbody s, ?_, ?_, by decide⟩
  · intro upperMap i f v h0 h1 hf
    obtain ⟨r, hr⟩ := elementAt_of_valid s.extractedData i h0 h1
    have hdata := updateData_extractedData upperMap s i f v r hr
    have hrow : elementAt (updateData upperMap s i f v).extractedData i =
        some (assignField r f (storedValue upperMap f v)) := by
      rw [hdata]
      exact elementAt_set _ _ _ h0 h1
    obtain ⟨items, members, hp, hl, hi, hm⟩ := hbody (updateData upperMap s i f v) i _ f
      (storedValue upperMap f v) hrow (getField_assignField_same r f _ hf)
    refine ⟨items, members, hp, ?_, hi, hm⟩
    rw [hl, hdata, List.length_set]
  · intro reply
    cases reply <;> exact ⟨rfl, rfl, rfl⟩

/-- Instance of C14: after `updateData(1, 'vin', '1a2 b3c')` on the sample session the body
parses to an object whose `data` array has, at index 1, an object with the member `vin` equal
to the stored `1A2B3C`. -/
theorem export_bodies_witness :
    ((0 : Int) ≤ 1 ∧ (1 : Int) < sampleState.extractedData.length ∧ "vin" ≠ "__proto__" ∧
      storedValue asciiUpperMap "vin" "1a2 b3c" = "1A2B3C") ∧
    ∃ (items : List Json) (members : List (String × Json)),
      jsonParse (downloadExcelRequest (updateData asciiUpperMap sampleState 1 "vin"
          "1a2 b3c")).body = some (Json.obj [("data", Json.arr items)]) ∧
      items.length = sampleState.extractedData.length ∧
      elementAt items 1 = some (Json.obj members) ∧
      ("vin", Json.str (storedValue asciiUpperMap "vin" "1a2 b3c")) ∈ members :=
  ⟨by decide,
   (export_bodies sampleState).2.2.1 asciiUpperMap 1 "vin" "1a2 b3c" (by decide) (by decide)
     (by decide)⟩

/-! ### The corrections are idempotent -/

theorem head?_dropWhile_false {α : Type} (p : α → Bool) (l : List α) (c : α)
    (h : (l.dropWhile p).head? = some c) : p c = false := by
  induction l with
  | nil => simp at h
  | cons x xs ih =>
    by_cases hx : p x = true
    · simp only [List.dropWhile_cons, hx, if_true] at h
      exact ih h
    · simp only [List.dropWhile_cons, hx, Bool.false_eq_true, if_false, List.head?_cons,
        Option.some.injEq] at h
      rw [← h]
      simpa using hx

theorem dropWhile_eq_self_of_head {α : Type} (p : α → Bool) (l : List α)
    (h : ∀ c, l.head? = some c → p c = false) : l.dropWhile p = l := by
  cases l with
  | nil => rfl
  | cons x xs =>
    have := h x rfl
    simp [List.dropWhile_cons, this]

theorem trim_trim (v : String) : trim (trim v) = trim v := by
  have hdef : ∀ s : String, trim s = ⟨List.rdropWhile isWhiteSpace (s.data.dropWhile isWhiteSpace)⟩ :=
    fun _ => rfl
  rw [hdef (trim v), hdef v]
  simp only
  have hhead : ∀ c, (List.rdropWhile isWhiteSpace (v.data.dropWhile isWhiteSpace)).head? = some c →
      isWhiteSpace c = false := by
    intro c hc
    obtain ⟨u, hu⟩ := List.rdropWhile_prefix isWhiteSpace
      (l := v.data.dropWhile isWhiteSpace)
    apply head?_dropWhile_false isWhiteSpace v.data c
    rw [← hu, List.head?_append, hc]
    rfl
  rw [dropWhile_eq_self_of_head _ _ hhead, List.rdropWhile_idempotent]

theorem flatten_map_single {α : Type} (l : List α) : (l.map (fun d => [d])).flatten = l := by
  induction l with
  | nil => rfl
  | cons x xs ih => simp [ih]

theorem removeWhiteSpace_toUpperCase_stable (upperMap : Char → List Char)
    (hup : ∀ c, ∀ d ∈ upperMap c, upperMap d = [d]) (v : String) :
    removeWhiteSpace (toUpperCase upperMap (removeWhiteSpace (toUpperCase upperMap v))) =
      removeWhiteSpace (toUpperCase upperMap v) := by
  simp only [removeWhiteSpace, toUpperCase]
  have hmap : ((v.data.map upperMap).flatten.filter (fun c => !isWhiteSpace c)).map upperMap =
      ((v.data.map upperMap).flatten.filter (fun c => !isWhiteSpace c)).map (fun d => [d]) := by
    apply List.map_congr_left
    intro d hd
    have hd2 := (List.mem_filter.mp hd).1
    obtain ⟨l, hl, hdl⟩ := List.mem_flatten.mp hd2
    obtain ⟨c, _, rfl⟩ := List.mem_map.mp hl
    exact hup c d hdl
  rw [hmap, flatten_map_single, List.filter_filter]
  simp

theorem filter_groupThousands (ds : List Char) (h : ∀ c ∈ ds, isDecimalDigit c = true) :
    (groupThousands ds).filter isDecimalDigit = ds := by
  induction ds with
  | nil => rfl
  | cons c cs ih =>
    have hc : isDecimalDigit c = true := h c (by simp)
    have hcomma : isDecimalDigit ',' = false := by decide
    have ih' := ih (fun d hd => h d (by simp [hd]))
    simp only [groupThousands]
    split <;> simp [List.filter_cons, hc, hcomma, ih']

theorem storedValue_formatNat (upperMap : Char → List Char) (m : Nat)
    (h : roundToDouble m = some m) :
    storedValue upperMap "odometer" (formatNat (shortestDecimal m)) =
      formatNat (shortestDecimal m) := by
  have hround := shortestDecimal_sound m h
  generalize hd : shortestDecimal m = d at hround ⊢
  obtain ⟨hdig, hne, hval⟩ := toDigits_decimal d
  have hfilter : removeNonDigits (formatNat d) = ⟨Nat.toDigits 10 d⟩ := by
    simp only [removeNonDigits, formatNat, filter_groupThousands _ hdig]
  have htruthy : truthy (formatNat d) = true := by
    simp only [truthy, formatNat, Bool.not_eq_true', List.isEmpty_eq_false]
    intro hnil
    have := congrArg (List.filter isDecimalDigit) hnil
    rw [filter_groupThousands _ hdig] at this
    exact hne (by simpa using this)
  have htruthy2 : truthy (⟨Nat.toDigits 10 d⟩ : String) = true := by
    simp only [truthy, Bool.not_eq_true', List.isEmpty_eq_false]
    exact hne
  have hparse : parseInt ⟨Nat.toDigits 10 d⟩ = JsNumber.finite false m := by
    rw [parseInt_digits _ hne hdig, hval, hround]
  have h1 : ¬ ("odometer" = "vin") := by decide
  have h2 : ¬ ("odometer" = "reg") := by decide
  have h3 : ¬ ("odometer" = "engine_no") := by decide
  simp only [storedValue, h1, h2, h3, false_and, if_false, true_and, htruthy, if_true, hfilter,
    htruthy2, hparse, toLocaleString, Bool.false_eq_true, hd]

theorem storedValue_idem (upperMap : Char → List Char)
    (hup : ∀ c, ∀ d ∈ upperMap c, upperMap d = [d]) (field v : String) :
    storedValue upperMap field (storedValue upperMap field v) = storedValue upperMap field v := by
  by_cases hv : truthy v = true
  swap
  · have hs : storedValue upperMap field v = v := by
      simp [storedValue, hv]
    rw [hs, hs]
  have hstable := removeWhiteSpace_toUpperCase_stable upperMap hup v
  have hident : ∀ f : String, f = "vin" ∨ f = "reg" ∨ f = "engine_no" →
      storedValue upperMap f (storedValue upperMap f v) = storedValue upperMap f v := by
    intro f hf
    have hs : storedValue upperMap f v = removeWhiteSpace (toUpperCase upperMap v) := by
      rcases hf with h | h | h <;> simp [storedValue, h, hv]
    rw [hs]
    by_cases hw : truthy (removeWhiteSpace (toUpperCase upperMap v)) = true
    · rcases hf with h | h | h <;> simp [storedValue, h, hw, hstable]
    · rcases hf with h | h | h <;> simp [storedValue, h, hw]
  by_cases hvin : field = "vin"
  · exact hident field (Or.inl hvin)
  by_cases hreg : field = "reg"
  · exact hident field (Or.inr (Or.inl hreg))
  by_cases heng : field = "engine_no"
  · exact hident field (Or.inr (Or.inr heng))
  by_cases hodo : field = "odometer"
  · subst hodo
    by_cases hnum : truthy (removeNonDigits v) = true
    · have hne : v.data.filter isDecimalDigit ≠ [] := by
        simpa [truthy, removeNonDigits] using hnum
      have hparse := parseInt_digits (v.data.filter isDecimalDigit) hne
        (fun d hd => (List.mem_filter.mp hd).2)
      have hs : storedValue upperMap "odometer" v =
          toLocaleString (parseInt (removeNonDigits v)) := by
        simp [storedValue, hv, hnum]
      rw [hs]
      simp only [removeNonDigits]
      rw [hparse]
      cases hround : roundToDouble
          ((v.data.filter isDecimalDigit).foldl (fun acc c => 10 * acc + (c.toNat - 48)) 0) with
      | none =>
        have ht : truthy "∞" = true := by decide
        have hd : truthy (removeNonDigits "∞") = false := by decide
        simp [toLocaleString, storedValue, ht, hd]
      | some m =>
        simp only [toLocaleString, Bool.false_eq_true, if_false]
        exact storedValue_formatNat upperMap m (roundToDouble_idem _ m hround)
    · have hs : storedValue upperMap "odometer" v = v := by
        simp [storedValue, hv, hnum]
      rw [hs, hs]
  by_cases hsel : field = "seller_name"
  · subst hsel
    have hs : storedValue upperMap "seller_name" v = trim v := by
      simp [storedValue, hv]
    rw [hs]
    by_cases hw : truthy (trim v) = true
    · simp [storedValue, hw, trim_trim]
    · simp [storedValue, hw]
  · have hs : ∀ x, storedValue upperMap field x = x := by
      intro x
      simp [storedValue, hvin, hreg, heng, hodo, hsel]
    rw [hs, hs]

/-- An edit that does not touch the seller history changes the record list only. -/
theorem updateData_eq_of_history_kept (upperMap : Char → List Char) (s : State) (i : Int)
    (field v : String) (r : Record) (hr : elementAt s.extractedData i = some r)
    (hkeep : ¬ (field = "seller_name" ∧ truthy v = true ∧ truthy (trim v) = true ∧
      trim v ∉ s.sellerHistory)) :
    updateData upperMap s i field v =
      { s with extractedData :=
          s.extractedData.set i.toNat (assignField r field (storedValue upperMap field v)) } := by
  have hdata := updateData_extractedData upperMap s i field v r hr
  by_cases hsel : field = "seller_name"
  · subst hsel
    have h1 : ¬ ("seller_name" = "vin") := by decide
    have h2 : ¬ ("seller_name" = "reg") := by decide
    have h3 : ¬ ("seller_name" = "engine_no") := by decide
    have h4 : ¬ ("seller_name" = "odometer") := by decide
    by_cases hv : truthy v = true
    · have hk : ¬ (truthy (trim v) = true ∧ trim v ∉ s.sellerHistory) := by
        intro hc
        exact hkeep ⟨rfl, hv, hc.1, hc.2⟩
      simp only [updateData, hr, storedValue, h1, h2, h3, h4, false_and, if_false, true_and, hv,
        if_true, hk]
    · simp only [updateData, hr, storedValue, h1, h2, h3, h4, false_and, if_false, true_and, hv,
        Bool.false_eq_true]
  · rw [← hdata]
    simp only [updateData, hr, hsel, false_and, if_false]
    split_ifs <;> rfl

/-- C20. Normalization is idempotent on the whole state: for every record list, seller history,
valid index `i`, field `f` and raw value `v`, if `w` is the value stored by
`updateData(i, f, v)`, then a further `updateData(i, f, w)` leaves the state, and so the record
list and the seller history, exactly as they were after the first call. The upper-case table is
assumed to map the characters it produces to themselves, as the Unicode table does. -/
theorem updateData_idempotent (upperMap : Char → List Char)
    (hup : ∀ c, ∀ d ∈ upperMap c, upperMap d = [d]) (s : State) (i : Int) (f v w : String)
    (h0 : 0 ≤ i) (h1 : i < s.extractedData.length)
    (hw : (elementAt (updateData upperMap s i f v).extractedData i).map
        (fun r => getField r f) = some (JsValue.str w)) :
    updateData upperMap (updateData upperMap s i f v) i f w = updateData upperMap s i f v ∧
    (updateData upperMap (updateData upperMap s i f v) i f w).extractedData =
      (updateData upperMap s i f v).extractedData ∧
    (updateData upperMap (updateData upperMap s i f v) i f w).sellerHistory =
      (updateData upperMap s i f v).sellerHistory := by
  obtain ⟨r, hr⟩ := elementAt_of_valid s.extractedData i h0 h1
  have hdata := updateData_extractedData upperMap s i f v r hr
  have hrow : elementAt (updateData upperMap s i f v).extractedData i =
      some (assignField r f (storedValue upperMap f v)) := by
    rw [hdata]
    exact elementAt_set _ _ _ h0 h1
  -- the stored value is the corrected value
  have hwc : w = storedValue upperMap f v := by
    rw [hrow] at hw
    simp only [Option.map_some', Option.some.injEq] at hw
    by_cases hc : f = "__proto__" ∧ hasField r f = false
    · have hsame : assignField r f (storedValue upperMap f v) = r := by
        unfold assignField
        rw [if_pos hc]
      rw [hsame, getField_of_hasField_false r f hc.2] at hw
      exact JsValue.noConfusion hw
    · have hdef : assignField r f (storedValue upperMap f v) =
          defineField r f (JsValue.str (storedValue upperMap f v)) := by
        unfold assignField
        rw [if_neg hc]
      rw [hdef, getField_defineField_same] at hw
      cases hw
      rfl
  subst hwc
  -- the second call does not touch the history
  have hkeep : ¬ (f = "seller_name" ∧ truthy (storedValue upperMap f v) = true ∧
      truthy (trim (storedValue upperMap f v)) = true ∧
      trim (storedValue upperMap f v) ∉ (updateData upperMap s i f v).sellerHistory) := by
    rintro ⟨hf, ht, _, hnot⟩
    subst hf
    have hv : truthy v = true := by
      by_contra hv
      have : storedValue upperMap "seller_name" v = v := by simp [storedValue, hv]
      rw [this] at ht
      exact hv ht
    have hs : storedValue upperMap "seller_name" v = trim v := by
      simp [storedValue, hv]
    rw [hs, trim_trim] at hnot
    rw [hs] at ht
    rw [updateData_sellerHistory] at hnot
    split at hnot
    · exact hnot (by simp)
    · rename_i hcond
      apply hcond
      refine ⟨by simp [hr], rfl, hv, ht, ?_⟩
      exact hnot
  have hfull := updateData_eq_of_history_kept upperMap (updateData upperMap s i f v) i f
    (storedValue upperMap f v) _ hrow hkeep
  have hstate : updateData upperMap (updateData upperMap s i f v) i f (storedValue upperMap f v) =
      updateData upperMap s i f v := by
    rw [hfull, storedValue_idem upperMap hup, assignField_assignField]
    have hset : (updateData upperMap s i f v).extractedData.set i.toNat
        (assignField r f (storedValue upperMap f v)) =
          (updateData upperMap s i f v).extractedData := by
      rw [hdata, List.set_set]
    rw [hset]
  exact ⟨hstate, by rw [hstate], by rw [hstate]⟩

theorem asciiUpperMap_stable : ∀ c, ∀ d ∈ asciiUpperMap c, asciiUpperMap d = [d] := by
  intro c d hd
  simp only [asciiUpperMap, List.mem_singleton] at hd
  subst hd
  simp only [asciiUpperMap, List.cons.injEq, and_true]
  by_cases h : c.toNat ≥ 97 ∧ c.toNat ≤ 122
  · have h1 : c.toUpper = Char.ofNat (c.toNat - 32) := by
      simp only [Char.toUpper, h, and_self, if_true]
    rw [h1]
    generalize c.toNat = n at h
    obtain ⟨ha, hb⟩ := h
    interval_cases n <;> rfl
  · have h1 : c.toUpper = c := by
      simp only [Char.toUpper, h, if_false]
    rw [h1, h1]

/-- Instance of C20 above `2 ^ 53`: the odometer `36028797018963968`, which is `2 ^ 55`, is
stored as `36,028,797,018,963,970`, the digits printed for that double, and typing
`36,028,797,018,963,970` again changes nothing. -/
theorem updateData_idempotent_witness :
    ((∀ c, ∀ d ∈ asciiUpperMap c, asciiUpperMap d = [d]) ∧ (0 : Int) ≤ 0 ∧
      (0 : Int) < sampleState.extractedData.length ∧
      (elementAt (updateData asciiUpperMap sampleState 0 "odometer"
          "36028797018963968").extractedData 0).map
        (fun r => getField r "odometer") = some (JsValue.str "36,028,797,018,963,970")) ∧
    (updateData asciiUpperMap (updateData asciiUpperMap sampleState 0 "odometer"
        "36028797018963968") 0 "odometer" "36,028,797,018,963,970" =
        updateData asciiUpperMap sampleState 0 "odometer" "36028797018963968" ∧
      (updateData asciiUpperMap (updateData asciiUpperMap sampleState 0 "odometer"
        "36028797018963968") 0 "odometer" "36,028,797,018,963,970").extractedData =
        (updateData asciiUpperMap sampleState 0 "odometer" "36028797018963968").extractedData ∧
      (updateData asciiUpperMap (updateData asciiUpperMap sampleState 0 "odometer"
        "36028797018963968") 0 "odometer" "36,028,797,018,963,970").sellerHistory =
        (updateData asciiUpperMap sampleState 0 "odometer" "36028797018963968").sellerHistory) :=
  ⟨⟨asciiUpperMap_stable, by decide, by decide, by decide⟩,
   updateData_idempotent asciiUpperMap asciiUpperMap_stable sampleState 0 "odometer"
     "36028797018963968" "36,028,797,018,963,970" (by decide) (by decide) (by decide)⟩

/-! ## Claims on the review table -/

theorem filter_comma_groupThousands (ds : List Char) (h : ∀ c ∈ ds, isDecimalDigit c = true) :
    (groupThousands ds).filter (fun c => c != ',') = ds := by
  induction ds with
  | nil => rfl
  | cons c cs ih =>
    have hc : c ≠ ',' := by
      intro hh
      have := h c (by simp)
      rw [hh] at this
      revert this
      decide
    have ih' := ih (fun d hd => h d (by simp [hd]))
    simp only [groupThousands]
    split <;> simp [List.filter_cons, hc, ih']

/-- The rendering of a double is displayed as it is: its commas are removed, its digits are
parsed to the same double, and the double is rendered again. -/
theorem displayOdometer_formatNat (m : Nat) (h : roundToDouble m = some m) :
    displayOdometer (JsValue.str (formatNat (shortestDecimal m))) =
      formatNat (shortestDecimal m) := by
  have hround := shortestDecimal_sound m h
  generalize hd : shortestDecimal m = d at hround ⊢
  obtain ⟨hdig, hne, hval⟩ := toDigits_decimal d
  have hfilter : removeCommas (formatNat d) = ⟨Nat.toDigits 10 d⟩ := by
    simp only [removeCommas, formatNat, filter_comma_groupThousands _ hdig]
  have htruthy : truthy (formatNat d) = true := by
    simp only [truthy, formatNat, Bool.not_eq_true', List.isEmpty_eq_false]
    intro hnil
    have := congrArg (List.filter isDecimalDigit) hnil
    rw [filter_groupThousands _ hdig] at this
    exact hne (by simpa using this)
  have hparse : parseInt ⟨Nat.toDigits 10 d⟩ = JsNumber.finite false m := by
    rw [parseInt_digits _ hne hdig, hval, hround]
  simp only [displayOdometer, htruthy, if_true, hfilter, hparse, toLocaleString,
    Bool.false_eq_true, if_false, hd]

/-- C21 (amended). For every valid record index and every raw value that is empty, or that
contains a decimal digit and whose digits denote an integer that `parseInt` reads as a finite
number, the odometer text that the expression of `displayDataTable` computes from the record
after `updateData(i, 'odometer', v)` is the stored value. -/
theorem displayOdometer_stored (upperMap : Char → List Char) (s : State) (i : Int) (v : String)
    (h0 : 0 ≤ i) (h1 : i < s.extractedData.length)
    (hv : v = "" ∨ ((∃ c ∈ v.data, isDecimalDigit c = true) ∧
      (roundToDouble (decimalValue v)).isSome = true)) :
    (elementAt (updateData upperMap s i "odometer" v).extractedData i).map
        (fun r => JsValue.str (displayOdometer (getField r "odometer"))) =
      (elementAt (updateData upperMap s i "odometer" v).extractedData i).map
        (fun r => getField r "odometer") := by
  obtain ⟨r, hr⟩ := elementAt_of_valid s.extractedData i h0 h1
  rw [updateData_extractedData upperMap s i "odometer" v r hr, elementAt_set _ _ _ h0 h1]
  simp only [Option.map_some',
    getField_assignField_same _ _ _ (by decide : "odometer" ≠ "__proto__"), Option.some.injEq,
    JsValue.str.injEq]
  have h1' : ¬ ("odometer" = "vin") := by decide
  have h2' : ¬ ("odometer" = "reg") := by decide
  have h3' : ¬ ("odometer" = "engine_no") := by decide
  rcases hv with hv | ⟨⟨c, hc, hcd⟩, hfin⟩
  · subst hv
    have ht : truthy "" = false := by decide
    have hs : storedValue upperMap "odometer" "" = "" := by
      simp [storedValue, ht]
    rw [hs]
    rfl
  · have htruthy : truthy v = true := by
      rw [truthy_eq_true_iff]
      intro hh
      subst hh
      simp at hc
    have hmem : c ∈ v.data.filter isDecimalDigit := List.mem_filter.mpr ⟨hc, hcd⟩
    have hne : v.data.filter isDecimalDigit ≠ [] := List.ne_nil_of_mem hmem
    have hnum : truthy (removeNonDigits v) = true := by
      simp only [truthy, removeNonDigits, Bool.not_eq_true', List.isEmpty_eq_false]
      exact hne
    obtain ⟨m, hm⟩ := Option.isSome_iff_exists.mp hfin
    have hparse : parseInt (removeNonDigits v) = JsNumber.finite false m := by
      have := parseInt_digits (v.data.filter isDecimalDigit) hne
        (fun d hd => (List.mem_filter.mp hd).2)
      rw [removeNonDigits, this]
      unfold decimalValue at hm
      rw [hm]
    have hs : storedValue upperMap "odometer" v = formatNat (shortestDecimal m) := by
      simp only [storedValue, h1', h2', h3', false_and, if_false, true_and, htruthy, if_true,
        hnum, hparse, toLocaleString, Bool.false_eq_true]
    rw [hs]
    exact displayOdometer_formatNat m (roundToDouble_idem (decimalValue v) m hm)

/-- Instance of C21: the value `12,345 km` typed into the first sample record is stored and
displayed as `12,345`. -/
theorem displayOdometer_stored_sample :
    ((0 : Int) ≤ 0 ∧ (0 : Int) < sampleState.extractedData.length ∧
      (∃ c ∈ "12,345 km".data, isDecimalDigit c = true) ∧
      (roundToDouble (decimalValue "12,345 km")).isSome = true) ∧
    (elementAt (updateData asciiUpperMap sampleState 0 "odometer" "12,345 km").extractedData 0).map
        (fun r => JsValue.str (displayOdometer (getField r "odometer"))) =
      (elementAt (updateData asciiUpperMap sampleState 0 "odometer" "12,345 km").extractedData 0).map
        (fun r => getField r "odometer") ∧
    (elementAt (updateData asciiUpperMap sampleState 0 "odometer" "12,345 km").extractedData 0).map
        (fun r => displayOdometer (getField r "odometer")) = some "12,345" :=
  ⟨by decide,
   displayOdometer_stored asciiUpperMap sampleState 0 "12,345 km" (by decide) (by decide)
    (Or.inr ⟨by decide, by decide⟩), by decide⟩

theorem digitValue_of_not_digit (c : Char) (h : isDecimalDigit c = false) :
    digitValue 10 c = none := by
  have hn : ¬ (48 ≤ c.toNat ∧ c.toNat ≤ 57) := by
    intro hh
    simp [isDecimalDigit, hh.1, hh.2] at h
  unfold digitValue
  simp only [hn, if_false]
  split_ifs with ha hb
  · have : ¬ c.toNat - 87 < 10 := by omega
    simp [Option.filter, this]
  · have : ¬ c.toNat - 55 < 10 := by omega
    simp [Option.filter, this]
  · rfl

/-- A text without a decimal digit is not a number for `parseInt`. -/
theorem parseInt_no_digit (cs : List Char) (h : ∀ c ∈ cs, isDecimalDigit c = false) :
    parseInt ⟨cs⟩ = JsNumber.nan := by
  have hbody : ∀ c ∈ cs.dropWhile isWhiteSpace, isDecimalDigit c = false :=
    fun c hc => h c ((List.dropWhile_sublist _).subset hc)
  unfold parseInt
  simp only
  generalize cs.dropWhile isWhiteSpace = body at hbody
  generalize hu : (if (body.head? == some '-' || body.head? == some '+') = true then body.tail
    else body) = unsigned
  have hun : ∀ c ∈ unsigned, isDecimalDigit c = false := by
    intro c hc
    rw [← hu] at hc
    split at hc
    · exact hbody c (List.mem_of_mem_tail hc)
    · exact hbody c hc
  have hzero : isDecimalDigit '0' = true := by decide
  have hhex : (decide (unsigned.take 2 = ['0', 'x']) || decide (unsigned.take 2 = ['0', 'X']))
      = false := by
    cases unsigned with
    | nil => simp
    | cons d ds =>
      have hd : d ≠ '0' := by
        intro hh
        have := hun d (by simp)
        rw [hh, hzero] at this
        exact Bool.noConfusion this
      cases ds with
      | nil => simp
      | cons e es => simp [hd]
  have hlead : leadingDigits 10 unsigned = [] := by
    cases unsigned with
    | nil => rfl
    | cons d ds => simp [leadingDigits, digitValue_of_not_digit d (hun d (by simp))]
  simp only [hhex, Bool.false_eq_true, if_false, hlead, List.isEmpty_nil, if_true]

/-- Where C21 fails as stated: for every non-empty value without a decimal digit the stored
value is the value as typed and the text computed from it is `NaN`. -/
theorem displayOdometer_no_digit (upperMap : Char → List Char) (s : State) (i : Int)
    (v : String) (h0 : 0 ≤ i) (h1 : i < s.extractedData.length) (hne : v ≠ "")
    (hd : ∀ c ∈ v.data, isDecimalDigit c = false) :
    (elementAt (updateData upperMap s i "odometer" v).extractedData i).map
        (fun r => (getField r "odometer", displayOdometer (getField r "odometer"))) =
      some (JsValue.str v, "NaN") := by
  obtain ⟨r, hr⟩ := elementAt_of_valid s.extractedData i h0 h1
  have htruthy : truthy v = true := (truthy_eq_true_iff v).mpr hne
  have hnum : truthy (removeNonDigits v) = false := by
    simp only [truthy, removeNonDigits, Bool.not_eq_false', List.isEmpty_iff]
    exact List.filter_eq_nil_iff.mpr (fun c hc => by simp [hd c hc])
  have hs : storedValue upperMap "odometer" v = v := by
    simp [storedValue, htruthy, hnum]
  have hparse : parseInt (removeCommas v) = JsNumber.nan :=
    parseInt_no_digit _ (fun c hc => hd c (List.mem_filter.mp hc).1)
  rw [updateData_extractedData upperMap s i "odometer" v r hr, elementAt_set _ _ _ h0 h1]
  simp only [Option.map_some',
    getField_assignField_same _ _ _ (by decide : "odometer" ≠ "__proto__"), hs, displayOdometer,
    htruthy, if_true, hparse, toLocaleString]

/-- C21 (as stated, refuted). The digit-free value `abc` typed into the odometer of the first
sample record is stored as `abc`; the text that the expression of `displayDataTable` computes
from the record is `NaN`, not the stored value. (`displayDataTable` is called by `processFiles`
only, on the records of a fresh reply, so the text is what a call would compute, not something
the page shows after the edit: the input keeps the stored `abc`.) -/
theorem displayOdometer_not_a_number :
    (elementAt (updateData asciiUpperMap sampleState 0 "odometer" "abc").extractedData 0).map
        (fun r => getField r "odometer") = some (JsValue.str "abc") ∧
    (elementAt (updateData asciiUpperMap sampleState 0 "odometer" "abc").extractedData 0).map
        (fun r => displayOdometer (getField r "odometer")) = some "NaN" ∧
    (elementAt (updateData asciiUpperMap sampleState 0 "odometer" "abc").extractedData 0).map
        (fun r => JsValue.str (displayOdometer (getField r "odometer"))) ≠
      (elementAt (updateData asciiUpperMap sampleState 0 "odometer" "abc").extractedData 0).map
        (fun r => getField r "odometer") := by
  decide

end DecFiller
